import Mathlib

/-!
Shallow embedding of the SimpleVector repository (src/array_ptr.h,
src/simple_vector.h and the second variant in src/unnamed/part_000).

The buffer owned through `ArrayPtr<Type>` is modelled as a `List α` holding
every allocated slot (`new Type[n]{}` value-initialises the slots, so a fresh
buffer is `List.replicate n default`).  A `SimpleVector` is the buffer plus
the `size_` and `capacity_` counters.  The two C++ variants differ only in
`Reserve`/`Expand`, `Resize`, `PushBack` and `Insert`; operations whose code
is identical in both headers are defined once.
-/

namespace SV

structure SimpleVector (α : Type) where
  data : List α
  size_ : Nat
  capacity_ : Nat
deriving DecidableEq

variable {α : Type}

/-- `SimpleVector() noexcept = default;` — null buffer, both counters 0. -/
def defaultSV : SimpleVector α := ⟨[], 0, 0⟩

/-- The logically live elements: slots `[0, size_)` of the buffer. -/
def live (v : SimpleVector α) : List α := v.data.take v.size_

/-- Well-formedness: `0 ≤ size_ ≤ capacity_` and the buffer holds exactly
`capacity_` allocated slots. -/
def Wf (v : SimpleVector α) : Prop :=
  v.size_ ≤ v.capacity_ ∧ v.data.length = v.capacity_

/-- `ArrayPtr<Type>(size)`: `new Type[size]{}` value-initialises `size` slots
(`size == 0` gives the null buffer, i.e. the empty list). -/
def newBuffer [Inhabited α] (n : Nat) : List α := List.replicate n default

/-- `std::copy(first, last, d_first)` writing a whole sequence `xs` onto the
front of buffer `buf`. -/
def copyToFront (buf xs : List α) : List α := xs ++ buf.drop xs.length

/-- `std::fill` of the index range `[a, b)` of `buf` with `x`. -/
def fillRange (buf : List α) (a b : Nat) (x : α) : List α :=
  buf.take a ++ List.replicate (b - a) x ++ buf.drop b

/-- `std::move_backward` / `std::copy_backward` of slots `[p, s)` one slot to
the right, into `[p+1, s+1)`; slots outside `[p+1, s+1)` keep their values. -/
def shiftRight (buf : List α) (p s : Nat) : List α :=
  buf.take (p + 1) ++ (buf.drop p).take (s - p) ++ buf.drop (s + 1)

/-- `std::move` / `std::copy` of slots `[p+1, s)` one slot to the left, into
`[p, s-1)`; slots outside `[p, s-1)` keep their values. -/
def shiftLeft (buf : List α) (p s : Nat) : List α :=
  buf.take p ++ (buf.drop (p + 1)).take (s - (p + 1)) ++ buf.drop (s - 1)

/-- `operator[]` of both variants: unchecked read of slot `i`. -/
def idx [Inhabited α] (v : SimpleVector α) (i : Nat) : α := v.data.getD i default

/-- `GetSize()` of both variants. -/
def GetSize (v : SimpleVector α) : Nat := v.size_

/-- `GetCapacity()` of both variants. -/
def GetCapacity (v : SimpleVector α) : Nat := v.capacity_

/-- `IsEmpty()` of both variants. -/
def IsEmpty (v : SimpleVector α) : Bool := v.size_ == 0

/-- `At(index)` of both variants (the non-const overload of the first variant
delegates to the same const body): throws `std::out_of_range("out of range")`
when `index >= size_`, otherwise returns `data_[index]`. -/
def At [Inhabited α] (v : SimpleVector α) (i : Nat) : Except String α :=
  if i ≥ v.size_ then Except.error "out of range" else Except.ok (idx v i)

/-- `Clear()` of both variants: `size_ = 0`. -/
def Clear (v : SimpleVector α) : SimpleVector α := { v with size_ := 0 }

/-- `PopBack()` of both variants: `size_ = size_ > 0 ? size_ - 1 : 0`. -/
def PopBack (v : SimpleVector α) : SimpleVector α :=
  { v with size_ := if v.size_ > 0 then v.size_ - 1 else 0 }

/-- Variant A `Reserve` (src/simple_vector.h): early return when
`capacity_ != 0 && capacity_ >= new_capacity`; otherwise clamps
`new_capacity = max(new_capacity, 1)`, allocates, move-copies the live
elements to the front of the new buffer and swaps it in. -/
def ReserveA [Inhabited α] (v : SimpleVector α) (n : Nat) : SimpleVector α :=
  if v.capacity_ ≠ 0 ∧ n ≤ v.capacity_ then v
  else
    let m := max n 1
    { data := copyToFront (newBuffer m) (live v), size_ := v.size_, capacity_ := m }

/-- Variant B `Reserve` (src/unnamed/part_000): early return when
`capacity_ >= new_capacity`; otherwise allocates exactly `new_capacity`
slots, move-copies the live elements and swaps the buffer in. -/
def ReserveB [Inhabited α] (v : SimpleVector α) (n : Nat) : SimpleVector α :=
  if n ≤ v.capacity_ then v
  else
    { data := copyToFront (newBuffer n) (live v), size_ := v.size_, capacity_ := n }

/-- Variant B `Expand`: `Reserve(new_capacity > 0 ? new_capacity : 1)`. -/
def ExpandB [Inhabited α] (v : SimpleVector α) (n : Nat) : SimpleVector α :=
  ReserveB v (if n > 0 then n else 1)

/-- The common tail of both `PushBack` overloads:
`data_[size_] = value; ++size_;`. -/
def writeBack (w : SimpleVector α) (x : α) : SimpleVector α :=
  { w with data := w.data.set w.size_ x, size_ := w.size_ + 1 }

/-- Variant A `PushBack`: grow by `Reserve(capacity_ * 2)` when full, then
`data_[size_] = value; ++size_;` (both overloads write the same value). -/
def PushBackA [Inhabited α] (v : SimpleVector α) (x : α) : SimpleVector α :=
  writeBack (if v.size_ = v.capacity_ then ReserveA v (v.capacity_ * 2) else v) x

/-- Variant B `PushBack`: grow by `Expand(capacity_ * 2)` when full, then
`data_[size_] = value; ++size_;`. -/
def PushBackB [Inhabited α] (v : SimpleVector α) (x : α) : SimpleVector α :=
  writeBack (if v.size_ = v.capacity_ then ExpandB v (v.capacity_ * 2) else v) x

/-- Variant A `Resize`: fill `[size_, new_size)` with `Type{}` when
`size_ < new_size ≤ capacity_`, otherwise `Reserve(new_size)`; finally
`size_ = new_size`. -/
def ResizeA [Inhabited α] (v : SimpleVector α) (n : Nat) : SimpleVector α :=
  if v.size_ < n ∧ n ≤ v.capacity_ then
    { data := fillRange v.data v.size_ n default, size_ := n, capacity_ := v.capacity_ }
  else
    { ReserveA v n with size_ := n }

/-- Variant B `Resize`: truncate when `new_size ≤ size_`; fill
`[size_, new_size)` with `Type{}` when `new_size ≤ capacity_`; otherwise
`Expand(new_size)`; finally `size_ = new_size`. -/
def ResizeB [Inhabited α] (v : SimpleVector α) (n : Nat) : SimpleVector α :=
  if n ≤ v.size_ then { v with size_ := n }
  else if n ≤ v.capacity_ then
    { data := fillRange v.data v.size_ n default, size_ := n, capacity_ := v.capacity_ }
  else
    { ExpandB v n with size_ := n }

/-- The common tail of both `Insert` overloads: shift `[p, size_)` one slot
to the right, write the value into the vacated slot `p`, increment `size_`. -/
def insertWrite (w : SimpleVector α) (p : Nat) (x : α) : SimpleVector α :=
  { w with data := (shiftRight w.data p w.size_).set p x, size_ := w.size_ + 1 }

/-- Variant A `Insert` at offset `p = pos - begin()`: grow by
`Reserve(capacity_ * 2)` when full (recomputing the target position by
offset), shift, write, increment `size_`; returns `begin() + p`, modelled as
the index `p`. -/
def InsertA [Inhabited α] (v : SimpleVector α) (p : Nat) (x : α) :
    SimpleVector α × Nat :=
  (insertWrite (if v.size_ = v.capacity_ then ReserveA v (v.capacity_ * 2) else v) p x, p)

/-- Variant B `Insert`: as variant A but growing through `Expand` and
shifting with `std::copy_backward` over move iterators (same slot contents
for value types). -/
def InsertB [Inhabited α] (v : SimpleVector α) (p : Nat) (x : α) :
    SimpleVector α × Nat :=
  (insertWrite (if v.size_ = v.capacity_ then ExpandB v (v.capacity_ * 2) else v) p x, p)

/-- `Erase` at offset `p` (the two variants differ only in `std::move` versus
`std::copy` over move iterators): shift `[p+1, size_)` one slot left,
decrement `size_`; returns `begin() + p`, modelled as the index `p`. -/
def Erase (v : SimpleVector α) (p : Nat) : SimpleVector α × Nat :=
  ({ v with data := shiftLeft v.data p v.size_, size_ := v.size_ - 1 }, p)

/-- `SimpleVector(size_t size)` of both variants: a buffer of `size`
value-initialised slots, `size_ = capacity_ = size`. -/
def mkSized [Inhabited α] (n : Nat) : SimpleVector α := ⟨newBuffer n, n, n⟩

/-- `SimpleVector(size, value)`: variant A delegates to `SimpleVector(size)`
then fills `[begin, end)` with `value`; variant B builds
`ArrayPtr(size, value)` directly.  Both yield `size` copies of `value`. -/
def mkFilledA [Inhabited α] (n : Nat) (x : α) : SimpleVector α :=
  let v : SimpleVector α := mkSized n
  { v with data := fillRange v.data 0 v.size_ x }

/-- Variant B `SimpleVector(size, value)` via `ArrayPtr(size, value)`. -/
def mkFilledB (n : Nat) (x : α) : SimpleVector α := ⟨List.replicate n x, n, n⟩

/-- `SimpleVector(std::initializer_list)` of both variants: buffer holding
exactly the listed elements, `size_ = capacity_ =` their count. -/
def mkFromList (xs : List α) : SimpleVector α := ⟨xs, xs.length, xs.length⟩

/-- `SimpleVector(const ReserveProxyObj&)` of variant A: default-construct,
return if the requested capacity is 0, else `Reserve(capacity)`. -/
def mkReserveA [Inhabited α] (n : Nat) : SimpleVector α :=
  if n = 0 then defaultSV else ReserveA defaultSV n

/-- `SimpleVector(const ReserveProxyObj&)` of variant B. -/
def mkReserveB [Inhabited α] (n : Nat) : SimpleVector α :=
  if n = 0 then defaultSV else ReserveB defaultSV n

/-- `CopyAndSwap(other)` of both variants (used by copy construction and copy
assignment): allocate `other.size_` slots, copy the live elements, swap the
buffer in, set `size_ = capacity_ = other.size_`. -/
def CopyAndSwap [Inhabited α] (src : SimpleVector α) : SimpleVector α :=
  ⟨copyToFront (newBuffer src.size_) (live src), src.size_, src.size_⟩

/-- `MoveFrom(other)` of both variants with `other` a distinct object, the
three statements in order: `data_ = std::move(other.data_)` (the `ArrayPtr`
move assignment nulls the source pointer), then
`size_ = std::exchange(other.size_, 0)`, then
`capacity_ = std::exchange(other.capacity_, 0)`.  Returns (destination,
source) after the call. -/
def MoveFrom (dst src : SimpleVector α) : SimpleVector α × SimpleVector α :=
  let dst1 := { dst with data := src.data }
  let src1 : SimpleVector α := { src with data := [] }
  let s := src1.size_
  let src2 := { src1 with size_ := 0 }
  let dst2 := { dst1 with size_ := s }
  let c := src2.capacity_
  let src3 := { src2 with capacity_ := 0 }
  let dst3 := { dst2 with capacity_ := c }
  (dst3, src3)

/-- `MoveFrom(other)` when `other` aliases `*this` (self move assignment):
the same three statements threaded through one object.  Each
`x = std::exchange(x, 0)` first stores `0` into the field and then stores the
saved old value back. -/
def MoveFromSelf (v : SimpleVector α) : SimpleVector α :=
  let d := v.data
  let v1 : SimpleVector α := { v with data := [] }
  let v2 := { v1 with data := d }
  let s := v2.size_
  let v3 := { v2 with size_ := 0 }
  let v4 := { v3 with size_ := s }
  let c := v4.capacity_
  let v5 := { v4 with capacity_ := 0 }
  let v6 := { v5 with capacity_ := c }
  v6

/-- `swap(other)` of both variants: exchange buffer, `size_`, `capacity_`. -/
def swapSV (a b : SimpleVector α) : SimpleVector α × SimpleVector α := (b, a)

/-- `operator==`: `std::equal` over the two live ranges (length and
element-wise equality). -/
def eqSV [DecidableEq α] (a b : SimpleVector α) : Bool := live a = live b

/-- `std::lexicographical_compare` over two element sequences. -/
def lexLt [LT α] [DecidableRel ((· < ·) : α → α → Prop)] :
    List α → List α → Bool
  | _, [] => false
  | [], _ :: _ => true
  | a :: as, b :: bs => if a < b then true else if b < a then false else lexLt as bs

/-- `operator<`: lexicographic comparison of the live ranges. -/
def ltSV [LT α] [DecidableRel ((· < ·) : α → α → Prop)]
    (a b : SimpleVector α) : Bool := lexLt (live a) (live b)

/-! ### Buffer-level helper lemmas -/

theorem length_live {v : SimpleVector α} (h : v.size_ ≤ v.data.length) :
    (live v).length = v.size_ := by
  simp only [live, List.length_take]
  omega

theorem length_copyToFront {buf xs : List α} (h : xs.length ≤ buf.length) :
    (copyToFront buf xs).length = buf.length := by
  simp only [copyToFront, List.length_append, List.length_drop]
  omega

theorem copyToFront_newBuffer [Inhabited α] (xs : List α) (m : Nat) :
    copyToFront (newBuffer m) xs = xs ++ List.replicate (m - xs.length) default := by
  simp only [copyToFront, newBuffer, List.drop_replicate]

theorem take_set_self {l : List α} {n : Nat} {x : α} (h : n < l.length) :
    (l.set n x).take (n + 1) = l.take n ++ [x] := by
  rw [List.set_take, List.take_succ, List.getElem?_eq_getElem h]
  have hlen : (List.take n l).length = n := by simp; omega
  rw [List.set_append]
  simp [hlen]

theorem getD_append_cons {A B : List α} {x d : α} :
    (A ++ x :: B).getD A.length d = x := by
  rw [List.getD_append_right _ _ _ _ (Nat.le_refl _)]
  simp

/-! ### Reserve / Expand spec lemmas -/

theorem reserveA_of_le [Inhabited α] {v : SimpleVector α} {n : Nat}
    (h0 : v.capacity_ ≠ 0) (h : n ≤ v.capacity_) : ReserveA v n = v := by
  simp [ReserveA, h0, h]

theorem size_le_max_of_not_reserveA_noop {v : SimpleVector α} {n : Nat}
    (hwf : Wf v) (h : ¬(v.capacity_ ≠ 0 ∧ n ≤ v.capacity_)) :
    v.size_ ≤ max n 1 := by
  have hcap := hwf.1
  by_cases hc : v.capacity_ = 0
  · omega
  · have hlt : v.capacity_ < n := by
      by_contra hn
      exact h ⟨hc, by omega⟩
    omega

theorem reserveA_grow [Inhabited α] {v : SimpleVector α} {n : Nat}
    (hwf : Wf v) (h : ¬(v.capacity_ ≠ 0 ∧ n ≤ v.capacity_)) :
    ReserveA v n =
      ⟨live v ++ List.replicate (max n 1 - v.size_) default, v.size_, max n 1⟩ := by
  have hs : v.size_ ≤ v.data.length := hwf.2 ▸ hwf.1
  have hsm : v.size_ ≤ max n 1 := size_le_max_of_not_reserveA_noop hwf h
  have hl : (live v).length = v.size_ := length_live hs
  unfold ReserveA
  rw [if_neg h]
  show SimpleVector.mk (copyToFront (newBuffer (max n 1)) (live v)) v.size_ (max n 1) = _
  rw [copyToFront_newBuffer, hl]

theorem reserveA_size [Inhabited α] (v : SimpleVector α) (n : Nat) :
    (ReserveA v n).size_ = v.size_ := by
  rw [ReserveA]; split <;> rfl

theorem reserveA_cap [Inhabited α] (v : SimpleVector α) (n : Nat) :
    (ReserveA v n).capacity_ =
      if v.capacity_ ≠ 0 ∧ n ≤ v.capacity_ then v.capacity_ else max n 1 := by
  rw [ReserveA]; split <;> rfl

theorem reserveA_live [Inhabited α] {v : SimpleVector α} (n : Nat) (hwf : Wf v) :
    live (ReserveA v n) = live v := by
  by_cases h : v.capacity_ ≠ 0 ∧ n ≤ v.capacity_
  · rw [reserveA_of_le h.1 h.2]
  · rw [reserveA_grow hwf h]
    have hs : v.size_ ≤ v.data.length := hwf.2 ▸ hwf.1
    unfold live
    exact List.take_left' (length_live hs)

theorem reserveA_wf [Inhabited α] {v : SimpleVector α} (n : Nat) (hwf : Wf v) :
    Wf (ReserveA v n) := by
  by_cases h : v.capacity_ ≠ 0 ∧ n ≤ v.capacity_
  · rw [reserveA_of_le h.1 h.2]; exact hwf
  · rw [reserveA_grow hwf h]
    have hs : v.size_ ≤ v.data.length := hwf.2 ▸ hwf.1
    have hsm : v.size_ ≤ max n 1 := size_le_max_of_not_reserveA_noop hwf h
    constructor
    · exact hsm
    · show (live v ++ List.replicate (max n 1 - v.size_) default).length = max n 1
      simp only [List.length_append, List.length_replicate, length_live hs]
      omega

theorem reserveB_of_le [Inhabited α] {v : SimpleVector α} {n : Nat}
    (h : n ≤ v.capacity_) : ReserveB v n = v := by
  simp [ReserveB, h]

theorem reserveB_grow [Inhabited α] {v : SimpleVector α} {n : Nat}
    (hwf : Wf v) (h : v.capacity_ < n) :
    ReserveB v n =
      ⟨live v ++ List.replicate (n - v.size_) default, v.size_, n⟩ := by
  have hs : v.size_ ≤ v.data.length := hwf.2 ▸ hwf.1
  have hcap := hwf.1
  have hl : (live v).length = v.size_ := length_live hs
  unfold ReserveB
  rw [if_neg (by omega)]
  show SimpleVector.mk (copyToFront (newBuffer n) (live v)) v.size_ n = _
  rw [copyToFront_newBuffer, hl]

theorem reserveB_size [Inhabited α] (v : SimpleVector α) (n : Nat) :
    (ReserveB v n).size_ = v.size_ := by
  rw [ReserveB]; split <;> rfl

theorem reserveB_cap [Inhabited α] (v : SimpleVector α) (n : Nat) :
    (ReserveB v n).capacity_ = if n ≤ v.capacity_ then v.capacity_ else n := by
  rw [ReserveB]; split <;> rfl

theorem reserveB_live [Inhabited α] {v : SimpleVector α} (n : Nat) (hwf : Wf v) :
    live (ReserveB v n) = live v := by
  by_cases h : n ≤ v.capacity_
  · rw [reserveB_of_le h]
  · rw [reserveB_grow hwf (by omega)]
    have hs : v.size_ ≤ v.data.length := hwf.2 ▸ hwf.1
    unfold live
    exact List.take_left' (length_live hs)

theorem reserveB_wf [Inhabited α] {v : SimpleVector α} (n : Nat) (hwf : Wf v) :
    Wf (ReserveB v n) := by
  by_cases h : n ≤ v.capacity_
  · rw [reserveB_of_le h]; exact hwf
  · rw [reserveB_grow hwf (by omega)]
    have hs : v.size_ ≤ v.data.length := hwf.2 ▸ hwf.1
    have hcap := hwf.1
    constructor
    · show v.size_ ≤ n
      omega
    · show (live v ++ List.replicate (n - v.size_) default).length = n
      simp only [List.length_append, List.length_replicate, length_live hs]
      omega

theorem expandB_eq_reserveB [Inhabited α] (v : SimpleVector α) (n : Nat) :
    ExpandB v n = ReserveB v (max n 1) := by
  unfold ExpandB
  congr 1
  split <;> omega

/-- The state both variants reach after growing a full vector by doubling
(minimum 1): the live elements at the front of a fresh buffer of
`max(capacity * 2, 1)` slots. -/
def grown [Inhabited α] (v : SimpleVector α) : SimpleVector α :=
  ⟨live v ++ List.replicate (max (v.capacity_ * 2) 1 - v.size_) default,
    v.size_, max (v.capacity_ * 2) 1⟩

theorem reserveA_double [Inhabited α] {v : SimpleVector α} (hwf : Wf v) :
    ReserveA v (v.capacity_ * 2) = grown v := by
  apply reserveA_grow hwf
  rintro ⟨h1, h2⟩
  omega

theorem expandB_double [Inhabited α] {v : SimpleVector α} (hwf : Wf v) :
    ExpandB v (v.capacity_ * 2) = grown v := by
  rw [expandB_eq_reserveB]
  exact reserveB_grow hwf (by omega)

theorem grown_size [Inhabited α] (v : SimpleVector α) :
    (grown v).size_ = v.size_ := rfl

theorem grown_cap [Inhabited α] (v : SimpleVector α) :
    (grown v).capacity_ = max (v.capacity_ * 2) 1 := rfl

theorem grown_size_lt [Inhabited α] {v : SimpleVector α} (hwf : Wf v) :
    (grown v).size_ < (grown v).data.length := by
  show v.size_ < (live v ++ List.replicate (max (v.capacity_ * 2) 1 - v.size_) default).length
  have hs : v.size_ ≤ v.data.length := hwf.2 ▸ hwf.1
  have hc := hwf.1
  simp only [List.length_append, List.length_replicate, length_live hs]
  omega

theorem grown_wf [Inhabited α] {v : SimpleVector α} (hwf : Wf v) :
    Wf (grown v) := by
  have hs : v.size_ ≤ v.data.length := hwf.2 ▸ hwf.1
  have hc := hwf.1
  constructor
  · show v.size_ ≤ max (v.capacity_ * 2) 1
    omega
  · show (live v ++ List.replicate (max (v.capacity_ * 2) 1 - v.size_) default).length
        = max (v.capacity_ * 2) 1
    simp only [List.length_append, List.length_replicate, length_live hs]
    omega

theorem grown_live [Inhabited α] {v : SimpleVector α} (hwf : Wf v) :
    live (grown v) = live v := by
  have hs : v.size_ ≤ v.data.length := hwf.2 ▸ hwf.1
  show (live v ++ List.replicate (max (v.capacity_ * 2) 1 - v.size_) default).take v.size_
      = live v
  exact List.take_left' (length_live hs)

/-! ### PushBack spec lemmas -/

theorem writeBack_live {w : SimpleVector α} {x : α} (h : w.size_ < w.data.length) :
    live (writeBack w x) = live w ++ [x] :=
  take_set_self h

theorem writeBack_size (w : SimpleVector α) (x : α) :
    (writeBack w x).size_ = w.size_ + 1 := rfl

theorem writeBack_cap (w : SimpleVector α) (x : α) :
    (writeBack w x).capacity_ = w.capacity_ := rfl

theorem writeBack_wf {w : SimpleVector α} (x : α) (hwf : Wf w)
    (h : w.size_ < w.data.length) : Wf (writeBack w x) := by
  constructor
  · show w.size_ + 1 ≤ w.capacity_
    have := hwf.2
    omega
  · show (w.data.set w.size_ x).length = w.capacity_
    rw [List.length_set]
    exact hwf.2

theorem pushBackA_eq [Inhabited α] {v : SimpleVector α} (x : α) (hwf : Wf v) :
    PushBackA v x =
      if v.size_ = v.capacity_ then writeBack (grown v) x
      else writeBack v x := by
  unfold PushBackA
  by_cases hc : v.size_ = v.capacity_
  · rw [if_pos hc, if_pos hc, reserveA_double hwf]
  · rw [if_neg hc, if_neg hc]

theorem pushBackB_eq [Inhabited α] {v : SimpleVector α} (x : α) (hwf : Wf v) :
    PushBackB v x =
      if v.size_ = v.capacity_ then writeBack (grown v) x
      else writeBack v x := by
  unfold PushBackB
  by_cases hc : v.size_ = v.capacity_
  · rw [if_pos hc, if_pos hc, expandB_double hwf]
  · rw [if_neg hc, if_neg hc]

theorem pushBackA_live [Inhabited α] {v : SimpleVector α} (x : α) (hwf : Wf v) :
    live (PushBackA v x) = live v ++ [x] := by
  rw [pushBackA_eq x hwf]
  by_cases hc : v.size_ = v.capacity_
  · rw [if_pos hc, writeBack_live (grown_size_lt hwf), grown_live hwf]
  · rw [if_neg hc, writeBack_live]
    have h1 := hwf.1
    have h2 := hwf.2
    omega

theorem pushBackA_size [Inhabited α] {v : SimpleVector α} (x : α) (hwf : Wf v) :
    (PushBackA v x).size_ = v.size_ + 1 := by
  rw [pushBackA_eq x hwf]
  by_cases hc : v.size_ = v.capacity_
  · rw [if_pos hc]; rfl
  · rw [if_neg hc]; rfl

theorem pushBackA_cap [Inhabited α] {v : SimpleVector α} (x : α) (hwf : Wf v) :
    (PushBackA v x).capacity_ =
      if v.size_ = v.capacity_ then max (v.capacity_ * 2) 1 else v.capacity_ := by
  rw [pushBackA_eq x hwf]
  by_cases hc : v.size_ = v.capacity_
  · rw [if_pos hc, if_pos hc]; rfl
  · rw [if_neg hc, if_neg hc]; rfl

theorem pushBackA_wf [Inhabited α] {v : SimpleVector α} (x : α) (hwf : Wf v) :
    Wf (PushBackA v x) := by
  rw [pushBackA_eq x hwf]
  by_cases hc : v.size_ = v.capacity_
  · rw [if_pos hc]
    exact writeBack_wf x (grown_wf hwf) (grown_size_lt hwf)
  · rw [if_neg hc]
    apply writeBack_wf x hwf
    have h1 := hwf.1
    have h2 := hwf.2
    omega

theorem pushBackB_live [Inhabited α] {v : SimpleVector α} (x : α) (hwf : Wf v) :
    live (PushBackB v x) = live v ++ [x] := by
  rw [pushBackB_eq x hwf]
  by_cases hc : v.size_ = v.capacity_
  · rw [if_pos hc, writeBack_live (grown_size_lt hwf), grown_live hwf]
  · rw [if_neg hc, writeBack_live]
    have h1 := hwf.1
    have h2 := hwf.2
    omega

theorem pushBackB_size [Inhabited α] {v : SimpleVector α} (x : α) (hwf : Wf v) :
    (PushBackB v x).size_ = v.size_ + 1 := by
  rw [pushBackB_eq x hwf]
  by_cases hc : v.size_ = v.capacity_
  · rw [if_pos hc]; rfl
  · rw [if_neg hc]; rfl

theorem pushBackB_cap [Inhabited α] {v : SimpleVector α} (x : α) (hwf : Wf v) :
    (PushBackB v x).capacity_ =
      if v.size_ = v.capacity_ then max (v.capacity_ * 2) 1 else v.capacity_ := by
  rw [pushBackB_eq x hwf]
  by_cases hc : v.size_ = v.capacity_
  · rw [if_pos hc, if_pos hc]; rfl
  · rw [if_neg hc, if_neg hc]; rfl

theorem pushBackB_wf [Inhabited α] {v : SimpleVector α} (x : α) (hwf : Wf v) :
    Wf (PushBackB v x) := by
  rw [pushBackB_eq x hwf]
  by_cases hc : v.size_ = v.capacity_
  · rw [if_pos hc]
    exact writeBack_wf x (grown_wf hwf) (grown_size_lt hwf)
  · rw [if_neg hc]
    apply writeBack_wf x hwf
    have h1 := hwf.1
    have h2 := hwf.2
    omega

/-! ### Insert / Erase spec lemmas -/

theorem length_shiftRight {buf : List α} {p s : Nat} (hp : p ≤ s)
    (hs : s < buf.length) : (shiftRight buf p s).length = buf.length := by
  simp only [shiftRight, List.length_append, List.length_take, List.length_drop]
  omega

theorem length_shiftLeft {buf : List α} {p s : Nat} (hp : p < s)
    (hs : s ≤ buf.length) : (shiftLeft buf p s).length = buf.length := by
  simp only [shiftLeft, List.length_append, List.length_take, List.length_drop]
  omega

theorem insert_core_take {buf : List α} {p s : Nat} {x : α}
    (hp : p ≤ s) (hs : s < buf.length) :
    ((shiftRight buf p s).set p x).take (s + 1)
      = buf.take p ++ x :: (buf.take s).drop p := by
  have hp1 : p < buf.length := by omega
  have hlp : (buf.take p).length = p := by simp; omega
  have htp : buf.take (p + 1) = buf.take p ++ [buf[p]] := by
    rw [List.take_succ, List.getElem?_eq_getElem hp1]
    rfl
  have hset : (buf.take (p + 1)).set p x = buf.take p ++ [x] := by
    rw [htp, List.set_append, if_neg (by rw [hlp]; omega)]
    rw [show p - (buf.take p).length = 0 from by rw [hlp]; omega]
    rfl
  unfold shiftRight
  rw [List.set_append, if_pos (by simp; omega)]
  rw [List.set_append, if_pos (by simp; omega), hset]
  rw [List.take_left' (by simp; omega), List.drop_take]
  simp [List.append_assoc]

theorem erase_core_take {buf : List α} {p s : Nat}
    (hp : p < s) (hs : s ≤ buf.length) :
    (shiftLeft buf p s).take (s - 1) = buf.take p ++ (buf.take s).drop (p + 1) := by
  unfold shiftLeft
  rw [List.take_left' (by simp; omega), List.drop_take]

theorem idx_eq_live_getD [Inhabited α] {v : SimpleVector α} {i : Nat}
    (h : i < v.size_) : idx v i = (live v).getD i default := by
  unfold idx live
  by_cases hl : i < v.data.length
  · rw [List.getD_eq_getElem _ _ hl, List.getD_eq_getElem _ _ (by simp; omega)]
    rw [List.getElem_take]
  · rw [List.getD_eq_getElem?_getD, List.getD_eq_getElem?_getD]
    rw [List.getElem?_eq_none (by omega), List.getElem?_eq_none (by simp; omega)]

theorem insertWrite_live {w : SimpleVector α} {p : Nat} {x : α}
    (hp : p ≤ w.size_) (hs : w.size_ < w.data.length) :
    live (insertWrite w p x) = (live w).take p ++ x :: (live w).drop p := by
  show ((shiftRight w.data p w.size_).set p x).take (w.size_ + 1) = _
  rw [insert_core_take hp hs]
  show w.data.take p ++ x :: (w.data.take w.size_).drop p
      = (w.data.take w.size_).take p ++ x :: (w.data.take w.size_).drop p
  rw [List.take_take, min_eq_left hp]

theorem insertWrite_size (w : SimpleVector α) (p : Nat) (x : α) :
    (insertWrite w p x).size_ = w.size_ + 1 := rfl

theorem insertWrite_cap (w : SimpleVector α) (p : Nat) (x : α) :
    (insertWrite w p x).capacity_ = w.capacity_ := rfl

theorem insertWrite_wf {w : SimpleVector α} {p : Nat} (x : α) (hwf : Wf w)
    (hp : p ≤ w.size_) (hs : w.size_ < w.data.length) :
    Wf (insertWrite w p x) := by
  constructor
  · show w.size_ + 1 ≤ w.capacity_
    have := hwf.2
    omega
  · show ((shiftRight w.data p w.size_).set p x).length = w.capacity_
    rw [List.length_set, length_shiftRight hp hs]
    exact hwf.2

theorem erase_live {v : SimpleVector α} {p : Nat} (hp : p < v.size_)
    (hwf : Wf v) :
    live (Erase v p).1 = (live v).take p ++ (live v).drop (p + 1) := by
  show (shiftLeft v.data p v.size_).take (v.size_ - 1) = _
  rw [erase_core_take hp (hwf.2 ▸ hwf.1)]
  show v.data.take p ++ (v.data.take v.size_).drop (p + 1)
      = (v.data.take v.size_).take p ++ (v.data.take v.size_).drop (p + 1)
  rw [List.take_take, min_eq_left (Nat.le_of_lt hp)]

theorem erase_size (v : SimpleVector α) (p : Nat) :
    (Erase v p).1.size_ = v.size_ - 1 := rfl

theorem erase_cap (v : SimpleVector α) (p : Nat) :
    (Erase v p).1.capacity_ = v.capacity_ := rfl

theorem erase_wf {v : SimpleVector α} {p : Nat} (hp : p < v.size_)
    (hwf : Wf v) : Wf (Erase v p).1 := by
  constructor
  · show v.size_ - 1 ≤ v.capacity_
    have := hwf.1
    omega
  · show (shiftLeft v.data p v.size_).length = v.capacity_
    rw [length_shiftLeft hp (hwf.2 ▸ hwf.1)]
    exact hwf.2

/-! ### Resize spec lemmas -/

theorem length_fillRange {buf : List α} {a b : Nat} {x : α}
    (hab : a ≤ b) (hb : b ≤ buf.length) :
    (fillRange buf a b x).length = buf.length := by
  simp only [fillRange, List.length_append, List.length_take, List.length_replicate,
    List.length_drop]
  omega

theorem take_fillRange {buf : List α} {a b : Nat} {x : α}
    (hab : a ≤ b) (hb : b ≤ buf.length) :
    (fillRange buf a b x).take b = buf.take a ++ List.replicate (b - a) x := by
  unfold fillRange
  rw [List.take_left' (by simp; omega)]

theorem resizeA_fill [Inhabited α] {v : SimpleVector α} {n : Nat}
    (h1 : v.size_ < n) (h2 : n ≤ v.capacity_) :
    ResizeA v n = ⟨fillRange v.data v.size_ n default, n, v.capacity_⟩ := by
  unfold ResizeA
  rw [if_pos ⟨h1, h2⟩]

theorem resizeA_trunc [Inhabited α] {v : SimpleVector α} {n : Nat}
    (hwf : Wf v) (h : n ≤ v.size_) (hc : v.capacity_ ≠ 0) :
    ResizeA v n = { v with size_ := n } := by
  unfold ResizeA
  rw [if_neg (by omega), reserveA_of_le hc (by have := hwf.1; omega)]

theorem resizeA_empty [Inhabited α] {v : SimpleVector α}
    (hwf : Wf v) (hc : v.capacity_ = 0) :
    ResizeA v 0 = ⟨[default], 0, 1⟩ := by
  have hs : v.size_ = 0 := by have := hwf.1; omega
  unfold ResizeA
  rw [if_neg (by omega), reserveA_grow hwf (by omega)]
  show SimpleVector.mk (live v ++ List.replicate (max 0 1 - v.size_) default) 0 (max 0 1)
      = ⟨[default], 0, 1⟩
  rw [show live v = [] from by simp [live, hs], hs]
  rfl

theorem resizeA_grow [Inhabited α] {v : SimpleVector α} {n : Nat}
    (hwf : Wf v) (h : v.capacity_ < n) :
    ResizeA v n = ⟨live v ++ List.replicate (n - v.size_) default, n, n⟩ := by
  unfold ResizeA
  rw [if_neg (by omega), reserveA_grow hwf (by omega)]
  rw [show max n 1 = n from by omega]

theorem resizeB_trunc [Inhabited α] {v : SimpleVector α} {n : Nat}
    (h : n ≤ v.size_) : ResizeB v n = { v with size_ := n } := by
  unfold ResizeB
  rw [if_pos h]

theorem resizeB_fill [Inhabited α] {v : SimpleVector α} {n : Nat}
    (h1 : v.size_ < n) (h2 : n ≤ v.capacity_) :
    ResizeB v n = ⟨fillRange v.data v.size_ n default, n, v.capacity_⟩ := by
  unfold ResizeB
  rw [if_neg (by omega), if_pos h2]

theorem resizeB_grow [Inhabited α] {v : SimpleVector α} {n : Nat}
    (hwf : Wf v) (h : v.capacity_ < n) :
    ResizeB v n = ⟨live v ++ List.replicate (n - v.size_) default, n, n⟩ := by
  have hs : v.size_ ≤ v.capacity_ := hwf.1
  unfold ResizeB
  rw [if_neg (by omega), if_neg (by omega), expandB_eq_reserveB,
    reserveB_grow hwf (by omega)]
  rw [show max n 1 = n from by omega]

theorem fill_live [Inhabited α] {v : SimpleVector α} {n : Nat}
    (h1 : v.size_ < n) (h2 : n ≤ v.data.length) :
    live (⟨fillRange v.data v.size_ n default, n, v.capacity_⟩ : SimpleVector α)
      = live v ++ List.replicate (n - v.size_) default := by
  show (fillRange v.data v.size_ n default).take n = _
  rw [take_fillRange (by omega) h2]
  rfl

theorem grow_live_replicate [Inhabited α] {v : SimpleVector α} {n : Nat}
    (h : v.size_ ≤ n) :
    live (⟨live v ++ List.replicate (n - v.size_) default, n, n⟩ : SimpleVector α)
      = live v ++ List.replicate (n - v.size_) default := by
  show (live v ++ List.replicate (n - v.size_) default).take n = _
  apply List.take_of_length_le
  simp only [List.length_append, List.length_replicate, live, List.length_take]
  omega

/-! ### Clear / PopBack spec lemmas -/

theorem clear_spec (v : SimpleVector α) :
    (Clear v).size_ = 0 ∧ (Clear v).capacity_ = v.capacity_ ∧
      (Clear v).data = v.data := ⟨rfl, rfl, rfl⟩

theorem clear_wf {v : SimpleVector α} (hwf : Wf v) : Wf (Clear v) :=
  ⟨Nat.zero_le _, hwf.2⟩

theorem popBack_size (v : SimpleVector α) :
    (PopBack v).size_ = v.size_ - 1 := by
  show (if v.size_ > 0 then v.size_ - 1 else 0) = v.size_ - 1
  split <;> omega

theorem popBack_wf {v : SimpleVector α} (hwf : Wf v) : Wf (PopBack v) := by
  constructor
  · rw [popBack_size]
    show v.size_ - 1 ≤ v.capacity_
    have := hwf.1
    omega
  · exact hwf.2

/-! ### Constructor spec lemmas -/

theorem defaultSV_wf : Wf (defaultSV : SimpleVector α) :=
  ⟨Nat.le_refl 0, rfl⟩

theorem mkSized_wf [Inhabited α] (n : Nat) : Wf (mkSized n : SimpleVector α) :=
  ⟨Nat.le_refl n, by simp [mkSized, newBuffer]⟩

theorem mkSized_live [Inhabited α] (n : Nat) :
    live (mkSized n : SimpleVector α) = List.replicate n default := by
  show (List.replicate n (default : α)).take n = _
  simp

theorem mkFilledA_eq [Inhabited α] (n : Nat) (x : α) :
    mkFilledA n x = ⟨List.replicate n x, n, n⟩ := by
  unfold mkFilledA mkSized fillRange newBuffer
  simp

theorem mkFilledB_wf [Inhabited α] (n : Nat) (x : α) : Wf (mkFilledB n x) :=
  ⟨Nat.le_refl n, by simp [mkFilledB]⟩

theorem mkFromList_wf (xs : List α) : Wf (mkFromList xs) :=
  ⟨Nat.le_refl _, rfl⟩

theorem mkFromList_live (xs : List α) : live (mkFromList xs) = xs :=
  List.take_length xs

theorem mkReserveA_eq [Inhabited α] (n : Nat) :
    mkReserveA n = if n = 0 then (defaultSV : SimpleVector α)
      else ⟨List.replicate n default, 0, n⟩ := by
  unfold mkReserveA
  by_cases h : n = 0
  · rw [if_pos h, if_pos h]
  · rw [if_neg h, if_neg h, reserveA_grow defaultSV_wf (by simp [defaultSV])]
    show SimpleVector.mk (live (defaultSV : SimpleVector α)
        ++ List.replicate (max n 1 - 0) default) 0 (max n 1) = _
    rw [show live (defaultSV : SimpleVector α) = [] from rfl,
      show max n 1 = n from by omega]
    rfl

theorem mkReserveB_eq [Inhabited α] (n : Nat) :
    mkReserveB n = if n = 0 then (defaultSV : SimpleVector α)
      else ⟨List.replicate n default, 0, n⟩ := by
  unfold mkReserveB
  by_cases h : n = 0
  · rw [if_pos h, if_pos h]
  · rw [if_neg h, if_neg h, reserveB_grow defaultSV_wf (by simp [defaultSV]; omega)]
    show SimpleVector.mk (live (defaultSV : SimpleVector α)
        ++ List.replicate (n - 0) default) 0 n = _
    rw [show live (defaultSV : SimpleVector α) = [] from rfl]
    rfl

/-! ### Copy / move / swap spec lemmas -/

theorem copyAndSwap_eq [Inhabited α] {v : SimpleVector α} (hwf : Wf v) :
    CopyAndSwap v = ⟨live v, v.size_, v.size_⟩ := by
  have hs : v.size_ ≤ v.data.length := hwf.2 ▸ hwf.1
  unfold CopyAndSwap
  rw [copyToFront_newBuffer, length_live hs]
  simp

theorem copyAndSwap_wf [Inhabited α] {v : SimpleVector α} (hwf : Wf v) :
    Wf (CopyAndSwap v) := by
  rw [copyAndSwap_eq hwf]
  exact ⟨Nat.le_refl _, length_live (hwf.2 ▸ hwf.1)⟩

theorem copyAndSwap_live [Inhabited α] {v : SimpleVector α} (hwf : Wf v) :
    live (CopyAndSwap v) = live v := by
  rw [copyAndSwap_eq hwf]
  show (live v).take v.size_ = live v
  apply List.take_of_length_le
  rw [length_live (hwf.2 ▸ hwf.1)]

theorem moveFrom_fst (dst src : SimpleVector α) :
    (MoveFrom dst src).1 = ⟨src.data, src.size_, src.capacity_⟩ := rfl

theorem moveFrom_snd (dst src : SimpleVector α) :
    (MoveFrom dst src).2 = ⟨[], 0, 0⟩ := rfl

theorem moveFromSelf_id (v : SimpleVector α) : MoveFromSelf v = v := rfl

/-! ### Insert spec lemmas, per variant -/

theorem insertA_eq [Inhabited α] {v : SimpleVector α} (p : Nat) (x : α)
    (hwf : Wf v) :
    InsertA v p x =
      (insertWrite (if v.size_ = v.capacity_ then grown v else v) p x, p) := by
  unfold InsertA
  by_cases hc : v.size_ = v.capacity_
  · rw [if_pos hc, if_pos hc, reserveA_double hwf]
  · rw [if_neg hc, if_neg hc]

theorem insertB_eq [Inhabited α] {v : SimpleVector α} (p : Nat) (x : α)
    (hwf : Wf v) :
    InsertB v p x =
      (insertWrite (if v.size_ = v.capacity_ then grown v else v) p x, p) := by
  unfold InsertB
  by_cases hc : v.size_ = v.capacity_
  · rw [if_pos hc, if_pos hc, expandB_double hwf]
  · rw [if_neg hc, if_neg hc]

theorem size_lt_length_of_ne {v : SimpleVector α} (hwf : Wf v)
    (hc : v.size_ ≠ v.capacity_) : v.size_ < v.data.length := by
  have h1 := hwf.1
  have h2 := hwf.2
  omega

theorem insert_shared_live [Inhabited α] {v : SimpleVector α} {p : Nat} (x : α)
    (hwf : Wf v) (hp : p ≤ v.size_) :
    live (insertWrite (if v.size_ = v.capacity_ then grown v else v) p x)
      = (live v).take p ++ x :: (live v).drop p := by
  by_cases hc : v.size_ = v.capacity_
  · rw [if_pos hc,
      insertWrite_live (by rw [grown_size]; exact hp) (grown_size_lt hwf),
      grown_live hwf]
  · rw [if_neg hc, insertWrite_live hp (size_lt_length_of_ne hwf hc)]

theorem insertA_live [Inhabited α] {v : SimpleVector α} {p : Nat} (x : α)
    (hwf : Wf v) (hp : p ≤ v.size_) :
    live (InsertA v p x).1 = (live v).take p ++ x :: (live v).drop p := by
  rw [insertA_eq p x hwf]
  exact insert_shared_live x hwf hp

theorem insertB_live [Inhabited α] {v : SimpleVector α} {p : Nat} (x : α)
    (hwf : Wf v) (hp : p ≤ v.size_) :
    live (InsertB v p x).1 = (live v).take p ++ x :: (live v).drop p := by
  rw [insertB_eq p x hwf]
  exact insert_shared_live x hwf hp

theorem insertA_size [Inhabited α] {v : SimpleVector α} (p : Nat) (x : α)
    (hwf : Wf v) : (InsertA v p x).1.size_ = v.size_ + 1 := by
  rw [insertA_eq p x hwf]
  by_cases hc : v.size_ = v.capacity_
  · rw [if_pos hc]; rfl
  · rw [if_neg hc]; rfl

theorem insertB_size [Inhabited α] {v : SimpleVector α} (p : Nat) (x : α)
    (hwf : Wf v) : (InsertB v p x).1.size_ = v.size_ + 1 := by
  rw [insertB_eq p x hwf]
  by_cases hc : v.size_ = v.capacity_
  · rw [if_pos hc]; rfl
  · rw [if_neg hc]; rfl

theorem insertA_cap [Inhabited α] {v : SimpleVector α} (p : Nat) (x : α)
    (hwf : Wf v) :
    (InsertA v p x).1.capacity_ =
      if v.size_ = v.capacity_ then max (v.capacity_ * 2) 1 else v.capacity_ := by
  rw [insertA_eq p x hwf]
  by_cases hc : v.size_ = v.capacity_
  · rw [if_pos hc, if_pos hc]; rfl
  · rw [if_neg hc, if_neg hc]; rfl

theorem insertB_cap [Inhabited α] {v : SimpleVector α} (p : Nat) (x : α)
    (hwf : Wf v) :
    (InsertB v p x).1.capacity_ =
      if v.size_ = v.capacity_ then max (v.capacity_ * 2) 1 else v.capacity_ := by
  rw [insertB_eq p x hwf]
  by_cases hc : v.size_ = v.capacity_
  · rw [if_pos hc, if_pos hc]; rfl
  · rw [if_neg hc, if_neg hc]; rfl

theorem insert_shared_wf [Inhabited α] {v : SimpleVector α} {p : Nat} (x : α)
    (hwf : Wf v) (hp : p ≤ v.size_) :
    Wf (insertWrite (if v.size_ = v.capacity_ then grown v else v) p x) := by
  by_cases hc : v.size_ = v.capacity_
  · rw [if_pos hc]
    exact insertWrite_wf x (grown_wf hwf) (by rw [grown_size]; exact hp)
      (grown_size_lt hwf)
  · rw [if_neg hc]
    exact insertWrite_wf x hwf hp (size_lt_length_of_ne hwf hc)

theorem insertA_wf [Inhabited α] {v : SimpleVector α} {p : Nat} (x : α)
    (hwf : Wf v) (hp : p ≤ v.size_) : Wf (InsertA v p x).1 := by
  rw [insertA_eq p x hwf]
  exact insert_shared_wf x hwf hp

theorem insertB_wf [Inhabited α] {v : SimpleVector α} {p : Nat} (x : α)
    (hwf : Wf v) (hp : p ≤ v.size_) : Wf (InsertB v p x).1 := by
  rw [insertB_eq p x hwf]
  exact insert_shared_wf x hwf hp

theorem insertA_ret [Inhabited α] (v : SimpleVector α) (p : Nat) (x : α) :
    (InsertA v p x).2 = p := rfl

theorem insertB_ret [Inhabited α] (v : SimpleVector α) (p : Nat) (x : α) :
    (InsertB v p x).2 = p := rfl

theorem getD_append_cons_of_len {A B : List α} {x d : α} {i : Nat}
    (h : A.length = i) : (A ++ x :: B).getD i d = x := by
  subst h
  exact getD_append_cons

theorem insertA_idx [Inhabited α] {v : SimpleVector α} {p : Nat} (x : α)
    (hwf : Wf v) (hp : p ≤ v.size_) : idx (InsertA v p x).1 p = x := by
  rw [idx_eq_live_getD (by rw [insertA_size p x hwf]; omega)]
  rw [insertA_live x hwf hp]
  apply getD_append_cons_of_len
  have : (live v).length = v.size_ := length_live (hwf.2 ▸ hwf.1)
  simp only [List.length_take, this]
  omega

/-! ### Resize size lemmas -/

theorem resizeA_size [Inhabited α] (v : SimpleVector α) (n : Nat) :
    (ResizeA v n).size_ = n := by
  unfold ResizeA
  split <;> rfl

theorem resizeB_size [Inhabited α] (v : SimpleVector α) (n : Nat) :
    (ResizeB v n).size_ = n := by
  unfold ResizeB
  split
  · rfl
  split <;> rfl

theorem data_take_eq_live_take {v : SimpleVector α} {k : Nat} (h : k ≤ v.size_) :
    v.data.take k = (live v).take k := by
  unfold live
  rw [List.take_take, min_eq_left h]

theorem resizeA_wf [Inhabited α] {v : SimpleVector α} (n : Nat) (hwf : Wf v) :
    Wf (ResizeA v n) := by
  have h1 := hwf.1
  have h2 := hwf.2
  rcases Nat.lt_or_ge v.capacity_ n with h | h
  · rw [resizeA_grow hwf h]
    constructor
    · exact Nat.le_refl n
    · show (live v ++ List.replicate (n - v.size_) default).length = n
      simp only [List.length_append, List.length_replicate, length_live (h2 ▸ h1)]
      omega
  · rcases Nat.lt_or_ge v.size_ n with hn | hn
    · rw [resizeA_fill hn h]
      constructor
      · exact h
      · show (fillRange v.data v.size_ n default).length = v.capacity_
        rw [length_fillRange (by omega) (by omega)]
        exact h2
    · by_cases hc : v.capacity_ = 0
      · have hn0 : n = 0 := by omega
        subst hn0
        rw [resizeA_empty hwf hc]
        exact ⟨Nat.zero_le 1, rfl⟩
      · rw [resizeA_trunc hwf hn hc]
        exact ⟨show n ≤ v.capacity_ by omega, h2⟩

theorem resizeB_wf [Inhabited α] {v : SimpleVector α} (n : Nat) (hwf : Wf v) :
    Wf (ResizeB v n) := by
  have h1 := hwf.1
  have h2 := hwf.2
  rcases le_or_lt n v.size_ with hn | hn
  · rw [resizeB_trunc hn]
    exact ⟨show n ≤ v.capacity_ by omega, h2⟩
  · rcases le_or_lt n v.capacity_ with h | h
    · rw [resizeB_fill hn h]
      constructor
      · exact h
      · show (fillRange v.data v.size_ n default).length = v.capacity_
        rw [length_fillRange (by omega) (by omega)]
        exact h2
    · rw [resizeB_grow hwf h]
      constructor
      · exact Nat.le_refl n
      · show (live v ++ List.replicate (n - v.size_) default).length = n
        simp only [List.length_append, List.length_replicate, length_live (h2 ▸ h1)]
        omega

/-! ### The mutating operation set and trace semantics -/

/-- One public mutating call on a `SimpleVector`. -/
inductive Op (α : Type) where
  | pushBack (x : α)
  | insertAt (p : Nat) (x : α)
  | eraseAt (p : Nat)
  | resizeTo (n : Nat)
  | reserveTo (n : Nat)
  | clearAll
  | popLast
deriving DecidableEq

/-- Apply one call, variant A (src/simple_vector.h). -/
def applyA [Inhabited α] (v : SimpleVector α) : Op α → SimpleVector α
  | .pushBack x => PushBackA v x
  | .insertAt p x => (InsertA v p x).1
  | .eraseAt p => (Erase v p).1
  | .resizeTo n => ResizeA v n
  | .reserveTo n => ReserveA v n
  | .clearAll => Clear v
  | .popLast => PopBack v

/-- Apply one call, variant B (src/unnamed/part_000). -/
def applyB [Inhabited α] (v : SimpleVector α) : Op α → SimpleVector α
  | .pushBack x => PushBackB v x
  | .insertAt p x => (InsertB v p x).1
  | .eraseAt p => (Erase v p).1
  | .resizeTo n => ResizeB v n
  | .reserveTo n => ReserveB v n
  | .clearAll => Clear v
  | .popLast => PopBack v

/-- The documented precondition of each call: `Insert` takes a position in
`[0, size]`, `Erase` a position in `[0, size)`; every other call is total. -/
def ValidOp (v : SimpleVector α) : Op α → Prop
  | .insertAt p _ => p ≤ v.size_
  | .eraseAt p => p < v.size_
  | _ => True

/-- Run a call sequence under variant A. -/
def runA [Inhabited α] (v : SimpleVector α) : List (Op α) → SimpleVector α
  | [] => v
  | op :: ops => runA (applyA v op) ops

/-- Run a call sequence under variant B. -/
def runB [Inhabited α] (v : SimpleVector α) : List (Op α) → SimpleVector α
  | [] => v
  | op :: ops => runB (applyB v op) ops

/-- Every call of the sequence meets its precondition along the variant A
execution. -/
def ValidFromA [Inhabited α] (v : SimpleVector α) : List (Op α) → Prop
  | [] => True
  | op :: ops => ValidOp v op ∧ ValidFromA (applyA v op) ops

theorem applyA_wf [Inhabited α] {v : SimpleVector α} {op : Op α}
    (hwf : Wf v) (hv : ValidOp v op) : Wf (applyA v op) := by
  cases op with
  | pushBack x => exact pushBackA_wf x hwf
  | insertAt p x => exact insertA_wf x hwf hv
  | eraseAt p => exact erase_wf hv hwf
  | resizeTo n => exact resizeA_wf n hwf
  | reserveTo n => exact reserveA_wf n hwf
  | clearAll => exact clear_wf hwf
  | popLast => exact popBack_wf hwf

theorem applyB_wf [Inhabited α] {v : SimpleVector α} {op : Op α}
    (hwf : Wf v) (hv : ValidOp v op) : Wf (applyB v op) := by
  cases op with
  | pushBack x => exact pushBackB_wf x hwf
  | insertAt p x => exact insertB_wf x hwf hv
  | eraseAt p => exact erase_wf hv hwf
  | resizeTo n => exact resizeB_wf n hwf
  | reserveTo n => exact reserveB_wf n hwf
  | clearAll => exact clear_wf hwf
  | popLast => exact popBack_wf hwf

theorem popBack_live (v : SimpleVector α) :
    live (PopBack v) = (live v).take (v.size_ - 1) := by
  show v.data.take (if v.size_ > 0 then v.size_ - 1 else 0) = (live v).take (v.size_ - 1)
  rw [show (if v.size_ > 0 then v.size_ - 1 else 0) = v.size_ - 1 from by split <;> omega]
  exact data_take_eq_live_take (by omega)

/-- The simulation relation between the two variants: both well-formed, same
size and same live elements; the capacities agree except in the one divergent
state (reached through variant A's `Reserve(0)` on a capacity-0 vector) where
variant A reports capacity 1 and variant B capacity 0, both empty. -/
def Rel [Inhabited α] (a b : SimpleVector α) : Prop :=
  Wf a ∧ Wf b ∧ a.size_ = b.size_ ∧ live a = live b ∧
    (a.capacity_ = b.capacity_ ∨
      (a.capacity_ = 1 ∧ b.capacity_ = 0 ∧ a.size_ = 0))

theorem validOp_of_size_eq {a b : SimpleVector α} {op : Op α}
    (hsz : a.size_ = b.size_) (hv : ValidOp a op) : ValidOp b op := by
  cases op <;> first
    | exact hv
    | (simp only [ValidOp] at hv ⊢; omega)

theorem rel_step [Inhabited α] {a b : SimpleVector α} {op : Op α}
    (h : Rel a b) (hv : ValidOp a op) : Rel (applyA a op) (applyB b op) := by
  obtain ⟨hwa, hwb, hsz, hlv, hcap⟩ := h
  have hvb : ValidOp b op := validOp_of_size_eq hsz hv
  have h1a := hwa.1
  have h2a := hwa.2
  have h1b := hwb.1
  have h2b := hwb.2
  refine ⟨applyA_wf hwa hv, applyB_wf hwb hvb, ?_⟩
  cases op with
  | pushBack x =>
    refine ⟨?_, ?_, ?_⟩
    · show (PushBackA a x).size_ = (PushBackB b x).size_
      rw [pushBackA_size x hwa, pushBackB_size x hwb, hsz]
    · show live (PushBackA a x) = live (PushBackB b x)
      rw [pushBackA_live x hwa, pushBackB_live x hwb, hlv]
    · show (PushBackA a x).capacity_ = (PushBackB b x).capacity_ ∨
        ((PushBackA a x).capacity_ = 1 ∧ (PushBackB b x).capacity_ = 0 ∧
          (PushBackA a x).size_ = 0)
      rw [pushBackA_cap x hwa, pushBackB_cap x hwb, pushBackA_size x hwa]
      split_ifs <;> omega
  | insertAt p x =>
    refine ⟨?_, ?_, ?_⟩
    · show (InsertA a p x).1.size_ = (InsertB b p x).1.size_
      rw [insertA_size p x hwa, insertB_size p x hwb, hsz]
    · show live (InsertA a p x).1 = live (InsertB b p x).1
      rw [insertA_live x hwa hv, insertB_live x hwb hvb, hlv]
    · show (InsertA a p x).1.capacity_ = (InsertB b p x).1.capacity_ ∨
        ((InsertA a p x).1.capacity_ = 1 ∧ (InsertB b p x).1.capacity_ = 0 ∧
          (InsertA a p x).1.size_ = 0)
      rw [insertA_cap p x hwa, insertB_cap p x hwb, insertA_size p x hwa]
      split_ifs <;> omega
  | eraseAt p =>
    refine ⟨?_, ?_, ?_⟩
    · show (Erase a p).1.size_ = (Erase b p).1.size_
      rw [erase_size, erase_size, hsz]
    · show live (Erase a p).1 = live (Erase b p).1
      rw [erase_live hv hwa, erase_live hvb hwb, hlv]
    · show (Erase a p).1.capacity_ = (Erase b p).1.capacity_ ∨
        ((Erase a p).1.capacity_ = 1 ∧ (Erase b p).1.capacity_ = 0 ∧
          (Erase a p).1.size_ = 0)
      rw [erase_cap, erase_cap, erase_size]
      have hp : p < a.size_ := hv
      omega
  | clearAll =>
    refine ⟨rfl, rfl, ?_⟩
    show (Clear a).capacity_ = (Clear b).capacity_ ∨
      ((Clear a).capacity_ = 1 ∧ (Clear b).capacity_ = 0 ∧ (Clear a).size_ = 0)
    show a.capacity_ = b.capacity_ ∨ (a.capacity_ = 1 ∧ b.capacity_ = 0 ∧ 0 = 0)
    omega
  | popLast =>
    refine ⟨?_, ?_, ?_⟩
    · show (PopBack a).size_ = (PopBack b).size_
      rw [popBack_size, popBack_size, hsz]
    · show live (PopBack a) = live (PopBack b)
      rw [popBack_live, popBack_live, hlv, hsz]
    · show (PopBack a).capacity_ = (PopBack b).capacity_ ∨
        ((PopBack a).capacity_ = 1 ∧ (PopBack b).capacity_ = 0 ∧ (PopBack a).size_ = 0)
      rw [popBack_size]
      show a.capacity_ = b.capacity_ ∨
        (a.capacity_ = 1 ∧ b.capacity_ = 0 ∧ a.size_ - 1 = 0)
      omega
  | reserveTo n =>
    refine ⟨?_, ?_, ?_⟩
    · show (ReserveA a n).size_ = (ReserveB b n).size_
      rw [reserveA_size, reserveB_size, hsz]
    · show live (ReserveA a n) = live (ReserveB b n)
      rw [reserveA_live n hwa, reserveB_live n hwb, hlv]
    · show (ReserveA a n).capacity_ = (ReserveB b n).capacity_ ∨
        ((ReserveA a n).capacity_ = 1 ∧ (ReserveB b n).capacity_ = 0 ∧
          (ReserveA a n).size_ = 0)
      rw [reserveA_cap, reserveB_cap, reserveA_size]
      split_ifs <;> omega
  | resizeTo n =>
    show (ResizeA a n).size_ = (ResizeB b n).size_ ∧
      live (ResizeA a n) = live (ResizeB b n) ∧
      ((ResizeA a n).capacity_ = (ResizeB b n).capacity_ ∨
        ((ResizeA a n).capacity_ = 1 ∧ (ResizeB b n).capacity_ = 0 ∧
          (ResizeA a n).size_ = 0))
    rcases hcap with hc | ⟨hc1, hc2, hc3⟩
    · rcases le_or_lt n a.size_ with hn | hn
      · by_cases hz : a.capacity_ = 0
        · have hn0 : n = 0 := by omega
          subst hn0
          rw [resizeA_empty hwa hz, resizeB_trunc (by omega)]
          refine ⟨rfl, rfl, ?_⟩
          right
          exact ⟨rfl, by show b.capacity_ = 0; omega, rfl⟩
        · rw [resizeA_trunc hwa hn hz, resizeB_trunc (by omega)]
          refine ⟨rfl, ?_, Or.inl hc⟩
          show a.data.take n = b.data.take n
          rw [data_take_eq_live_take hn, data_take_eq_live_take (by omega), hlv]
      · rcases le_or_lt n a.capacity_ with hle | hgt
        · rw [resizeA_fill hn hle, resizeB_fill (by omega) (by omega)]
          refine ⟨rfl, ?_, Or.inl hc⟩
          rw [fill_live hn (by omega), fill_live (by omega) (by omega), hlv, hsz]
        · rw [resizeA_grow hwa hgt, resizeB_grow hwb (by omega)]
          refine ⟨rfl, ?_, Or.inl rfl⟩
          rw [grow_live_replicate (by omega), grow_live_replicate (by omega), hlv, hsz]
    · have hbs : b.size_ = 0 := by omega
      rcases Nat.lt_or_ge n 1 with hn0 | hn1
      · have hn00 : n = 0 := by omega
        subst hn00
        rw [resizeA_trunc hwa (by omega) (by omega), resizeB_trunc (by omega)]
        refine ⟨rfl, rfl, ?_⟩
        right
        exact ⟨hc1, hc2, rfl⟩
      · rcases Nat.lt_or_ge n 2 with hn1' | hn2
        · have hn11 : n = 1 := by omega
          subst hn11
          rw [resizeA_fill (by omega) (by omega), resizeB_grow hwb (by omega)]
          refine ⟨rfl, ?_, ?_⟩
          · rw [fill_live (by omega) (by omega), grow_live_replicate (by omega),
              hlv, hsz, hbs]
          · left
            exact hc1
        · rw [resizeA_grow hwa (by omega), resizeB_grow hwb (by omega)]
          refine ⟨rfl, ?_, Or.inl rfl⟩
          rw [grow_live_replicate (by omega), grow_live_replicate (by omega), hlv, hsz]

theorem rel_run [Inhabited α] {a b : SimpleVector α} {ops : List (Op α)}
    (h : Rel a b) (hv : ValidFromA a ops) : Rel (runA a ops) (runB b ops) := by
  induction ops generalizing a b with
  | nil => exact h
  | cons op ops ih => exact ih (rel_step h hv.1) hv.2

theorem at_congr [Inhabited α] {a b : SimpleVector α}
    (hsz : a.size_ = b.size_) (hlv : live a = live b) (i : Nat) :
    At a i = At b i := by
  unfold At
  by_cases hi : i < a.size_
  · rw [if_neg (by omega), if_neg (by omega),
      idx_eq_live_getD hi, idx_eq_live_getD (by omega), hlv]
  · rw [if_pos (by omega), if_pos (by omega)]

theorem take_insert_live {L : List α} {p : Nat} {x : α} (h : p ≤ L.length) :
    (L.take p ++ x :: L.drop p).take p = L.take p := by
  apply List.take_append_of_le_length (by simp; omega) |>.trans
  rw [List.take_take, min_self]

theorem drop_insert_live {L : List α} {p : Nat} {x : α} (h : p ≤ L.length) :
    (L.take p ++ x :: L.drop p).drop (p + 1) = L.drop p := by
  rw [show L.take p ++ x :: L.drop p = (L.take p ++ [x]) ++ L.drop p from by simp]
  rw [List.drop_left' (by simp; omega)]

/-- `n` repetitions of `PushBack(0)` on a default-constructed vector,
variant A. -/
def pushNA : Nat → SimpleVector Nat
  | 0 => defaultSV
  | n + 1 => PushBackA (pushNA n) 0

/-- `n` repetitions of `PushBack(0)` on a default-constructed vector,
variant B. -/
def pushNB : Nat → SimpleVector Nat
  | 0 => defaultSV
  | n + 1 => PushBackB (pushNB n) 0

/-! ### Claim theorems -/

/-- C1: for every `SimpleVector` with `size` elements, `At(i)` fails with an
OutOfRange error exactly when `i ≥ size` (the bound is `size`, not
`capacity`), and for every `i < size` it returns the element at index `i`,
equal to the one `operator[](i)` returns.  (The `At` body is identical in
both source variants.) -/
theorem c1_at_bounds {α : Type} [Inhabited α] (v : SimpleVector α) (i : Nat) :
    (v.size_ ≤ i → At v i = Except.error "out of range") ∧
    (i < v.size_ → At v i = Except.ok (idx v i)) := by
  constructor
  · intro h
    unfold At
    rw [if_pos (by omega)]
  · intro h
    unfold At
    rw [if_neg (by omega)]

theorem c1_at_bounds_witness :
    At (mkFromList [3, 4] : SimpleVector Nat) 5 = Except.error "out of range" ∧
    At (mkFromList [3, 4] : SimpleVector Nat) 1
      = Except.ok (idx (mkFromList [3, 4] : SimpleVector Nat) 1) :=
  ⟨(c1_at_bounds (mkFromList [3, 4] : SimpleVector Nat) 5).1 (by decide),
    (c1_at_bounds (mkFromList [3, 4] : SimpleVector Nat) 1).2 (by decide)⟩

/-- C2: `PushBack` grows only when `size == capacity`, and then to capacity
`max(1, capacity * 2)`; afterwards the new element sits at index `size` (the
old size), `size` has increased by 1 and the earlier elements are unchanged
in order; from a default-constructed vector, repeated `PushBack` produces the
capacity sequence 0, 1, 2, 4, 8, 16 (capacities after 0..9 pushes).  Both
variants. -/
theorem c2_pushback_growth {α : Type} [Inhabited α] (v : SimpleVector α)
    (x : α) (hwf : Wf v) :
    (v.size_ < v.capacity_ →
      (PushBackA v x).capacity_ = v.capacity_ ∧
      (PushBackB v x).capacity_ = v.capacity_) ∧
    (v.size_ = v.capacity_ →
      (PushBackA v x).capacity_ = max 1 (v.capacity_ * 2) ∧
      (PushBackB v x).capacity_ = max 1 (v.capacity_ * 2)) ∧
    (PushBackA v x).size_ = v.size_ + 1 ∧
    (PushBackB v x).size_ = v.size_ + 1 ∧
    live (PushBackA v x) = live v ++ [x] ∧
    live (PushBackB v x) = live v ++ [x] ∧
    idx (PushBackA v x) v.size_ = x ∧
    idx (PushBackB v x) v.size_ = x ∧
    ((List.range 10).map fun n => (pushNA n).capacity_)
      = [0, 1, 2, 4, 4, 8, 8, 8, 8, 16] ∧
    ((List.range 10).map fun n => (pushNB n).capacity_)
      = [0, 1, 2, 4, 4, 8, 8, 8, 8, 16] := by
  have hlen : (live v).length = v.size_ := length_live (hwf.2 ▸ hwf.1)
  refine ⟨?_, ?_, pushBackA_size x hwf, pushBackB_size x hwf,
    pushBackA_live x hwf, pushBackB_live x hwf, ?_, ?_, by decide, by decide⟩
  · intro h
    rw [pushBackA_cap x hwf, pushBackB_cap x hwf, if_neg (by omega)]
    exact ⟨rfl, rfl⟩
  · intro h
    rw [pushBackA_cap x hwf, pushBackB_cap x hwf, if_pos h]
    exact ⟨Nat.max_comm _ _, Nat.max_comm _ _⟩
  · rw [idx_eq_live_getD (by rw [pushBackA_size x hwf]; omega),
      pushBackA_live x hwf]
    exact getD_append_cons_of_len hlen
  · rw [idx_eq_live_getD (by rw [pushBackB_size x hwf]; omega),
      pushBackB_live x hwf]
    exact getD_append_cons_of_len hlen

theorem c2_pushback_growth_witness :
    (PushBackA (mkFromList [5, 7] : SimpleVector Nat) 9).capacity_
      = max 1 ((mkFromList [5, 7] : SimpleVector Nat).capacity_ * 2) ∧
    live (PushBackA (mkFromList [5, 7] : SimpleVector Nat) 9)
      = live (mkFromList [5, 7] : SimpleVector Nat) ++ [9] := by
  have h := c2_pushback_growth (mkFromList [5, 7] : SimpleVector Nat) 9
    ⟨by decide, by decide⟩
  exact ⟨(h.2.1 (by decide)).1, h.2.2.2.2.2.1⟩

/-- C7: after move construction or move assignment (both run `MoveFrom`), the
source is left with `size == 0`, `capacity == 0` and an empty buffer, while
the destination holds exactly the source's original size, capacity and
element sequence. -/
theorem c7_move_transfer (dst src : SimpleVector α) :
    (MoveFrom dst src).1.size_ = src.size_ ∧
    (MoveFrom dst src).1.capacity_ = src.capacity_ ∧
    live (MoveFrom dst src).1 = live src ∧
    (MoveFrom dst src).2.size_ = 0 ∧
    (MoveFrom dst src).2.capacity_ = 0 ∧
    (MoveFrom dst src).2.data = [] :=
  ⟨rfl, rfl, rfl, rfl, rfl, rfl⟩

/-- C10: self-assignment is safe at the value level: copy-assigning `v` to
itself (`CopyAndSwap` with the source aliasing `*this`) keeps its size and
element sequence, and move-assigning `v` to itself (the `std::exchange`
sequence threaded through one object) leaves size, capacity and elements
all unchanged. -/
theorem c10_self_assignment {α : Type} [Inhabited α] (v : SimpleVector α)
    (hwf : Wf v) :
    (CopyAndSwap v).size_ = v.size_ ∧
    live (CopyAndSwap v) = live v ∧
    MoveFromSelf v = v :=
  ⟨rfl, copyAndSwap_live hwf, moveFromSelf_id v⟩

theorem c10_self_assignment_witness :
    live (CopyAndSwap (mkFromList [4, 6] : SimpleVector Nat))
      = live (mkFromList [4, 6] : SimpleVector Nat) ∧
    MoveFromSelf (mkFromList [4, 6] : SimpleVector Nat) = mkFromList [4, 6] :=
  ⟨(c10_self_assignment (mkFromList [4, 6] : SimpleVector Nat)
      ⟨by decide, by decide⟩).2.1,
    (c10_self_assignment (mkFromList [4, 6] : SimpleVector Nat)
      ⟨by decide, by decide⟩).2.2⟩

/-- C3 counterexample: variant A's `Reserve(0)` on a default-constructed
vector (capacity 0) is not a no-op although `newCapacity ≤ capacity`: it
allocates one slot and sets the capacity to 1. -/
theorem c3_reserve_counterexample :
    0 ≤ (defaultSV : SimpleVector Nat).capacity_ ∧
    (ReserveA (defaultSV : SimpleVector Nat) 0).capacity_ = 1 ∧
    ReserveA (defaultSV : SimpleVector Nat) 0 ≠ defaultSV := by decide

/-- C3 (amended): `Reserve(newCapacity)` is a no-op when
`newCapacity ≤ capacity`, except that variant A's `Reserve(0)` on a
capacity-0 vector allocates one default slot and sets `capacity = 1`;
otherwise it allocates a buffer of exactly `newCapacity` slots, transfers the
`size` live elements in order and sets `capacity = newCapacity`.  In all
cases `size` is unchanged, the capacity never decreases, afterwards
`capacity ≥ newCapacity`, and every previously live element is preserved in
order.  In the growing case the whole resulting state is pinned down: the
live elements sit at the front of a fresh buffer of exactly `newCapacity`
slots whose tail is default-initialised.  Variant B satisfies the original
claim unconditionally. -/
theorem c3_reserve_amended {α : Type} [Inhabited α] (v : SimpleVector α)
    (n : Nat) (hwf : Wf v) :
    (¬(v.capacity_ = 0 ∧ n = 0) → n ≤ v.capacity_ → ReserveA v n = v) ∧
    (v.capacity_ = 0 ∧ n = 0 → ReserveA v n = ⟨[default], 0, 1⟩) ∧
    (v.capacity_ < n →
      (ReserveA v n).capacity_ = n ∧ (ReserveA v n).data.length = n ∧
        live (ReserveA v n) = live v) ∧
    (ReserveA v n).size_ = v.size_ ∧
    v.capacity_ ≤ (ReserveA v n).capacity_ ∧
    n ≤ (ReserveA v n).capacity_ ∧
    live (ReserveA v n) = live v ∧
    (n ≤ v.capacity_ → ReserveB v n = v) ∧
    (v.capacity_ < n →
      (ReserveB v n).capacity_ = n ∧ (ReserveB v n).data.length = n ∧
        live (ReserveB v n) = live v) ∧
    (ReserveB v n).size_ = v.size_ ∧
    v.capacity_ ≤ (ReserveB v n).capacity_ ∧
    n ≤ (ReserveB v n).capacity_ ∧
    live (ReserveB v n) = live v ∧
    (v.capacity_ < n → ReserveA v n
      = ⟨live v ++ List.replicate (n - v.size_) default, v.size_, n⟩) ∧
    (v.capacity_ < n → ReserveB v n
      = ⟨live v ++ List.replicate (n - v.size_) default, v.size_, n⟩) := by
  have h1 := hwf.1
  have h2 := hwf.2
  have hlen : (live v).length = v.size_ := length_live (h2 ▸ h1)
  refine ⟨?_, ?_, ?_, reserveA_size v n, ?_, ?_, reserveA_live n hwf,
    fun h => reserveB_of_le h, ?_, reserveB_size v n, ?_, ?_, reserveB_live n hwf,
    ?_, fun h => reserveB_grow hwf h⟩
  · intro hno hle
    have hc : v.capacity_ ≠ 0 := by
      by_contra hz
      exact hno ⟨hz, by omega⟩
    exact reserveA_of_le hc hle
  · rintro ⟨hc, hn⟩
    subst hn
    have hs : v.size_ = 0 := by omega
    rw [reserveA_grow hwf (by omega)]
    show SimpleVector.mk (live v ++ List.replicate (max 0 1 - v.size_) default)
        v.size_ (max 0 1) = _
    rw [show live v = [] from by simp [live, hs], hs]
    rfl
  · intro h
    rw [reserveA_grow hwf (by omega)]
    refine ⟨?_, ?_, ?_⟩
    · show max n 1 = n
      omega
    · show (live v ++ List.replicate (max n 1 - v.size_) default).length = n
      simp only [List.length_append, List.length_replicate, hlen]
      omega
    · show (live v ++ List.replicate (max n 1 - v.size_) default).take v.size_ = live v
      exact List.take_left' hlen
  · rw [reserveA_cap]
    split_ifs <;> omega
  · rw [reserveA_cap]
    split_ifs <;> omega
  · intro h
    rw [reserveB_grow hwf h]
    refine ⟨rfl, ?_, ?_⟩
    · show (live v ++ List.replicate (n - v.size_) default).length = n
      simp only [List.length_append, List.length_replicate, hlen]
      omega
    · show (live v ++ List.replicate (n - v.size_) default).take v.size_ = live v
      exact List.take_left' hlen
  · rw [reserveB_cap]
    split_ifs <;> omega
  · rw [reserveB_cap]
    split_ifs <;> omega
  · intro h
    rw [reserveA_grow hwf (by omega), show max n 1 = n from by omega]

theorem c3_reserve_amended_witness :
    ReserveA (mkFromList [1, 2, 3] : SimpleVector Nat) 2 = mkFromList [1, 2, 3] ∧
    (ReserveA (mkFromList [1, 2, 3] : SimpleVector Nat) 10).capacity_ = 10 ∧
    live (ReserveB (mkFromList [1, 2, 3] : SimpleVector Nat) 10)
      = live (mkFromList [1, 2, 3] : SimpleVector Nat) := by
  have h := c3_reserve_amended (mkFromList [1, 2, 3] : SimpleVector Nat) 2
    ⟨by decide, by decide⟩
  have h10 := c3_reserve_amended (mkFromList [1, 2, 3] : SimpleVector Nat) 10
    ⟨by decide, by decide⟩
  exact ⟨h.1 (by decide) (by decide), (h10.2.2.1 (by decide)).1,
    h10.2.2.2.2.2.2.2.2.2.2.2.2.1⟩

/-- C4 counterexample: variant A's `Resize(0)` on a default-constructed
vector (size 0, capacity 0) falls into the truncation case
(`newSize ≤ size`), yet it reallocates and changes the capacity from 0
to 1. -/
theorem c4_resize_counterexample :
    0 ≤ (defaultSV : SimpleVector Nat).size_ ∧
    (defaultSV : SimpleVector Nat).capacity_ = 0 ∧
    (ResizeA (defaultSV : SimpleVector Nat) 0).capacity_ = 1 := by decide

/-- C4 (amended): `Resize(newSize)` behaves by cases.  `newSize ≤ size`
truncates (`size = newSize`, buffer and capacity untouched) — except in
variant A when `capacity = 0` (hence `size = newSize = 0`), where it
allocates one slot and sets `capacity = 1`.  When `size < newSize ≤
capacity`, the slots `[size, newSize)` are overwritten with the default
value, `size = newSize`, same buffer, capacity unchanged.  When
`newSize > capacity` the buffer grows, the first `size` elements are
preserved in order, the tail is default-initialised and `size = newSize`
with `capacity ≥ newSize`.  Variant B satisfies the original claim
unconditionally. -/
theorem c4_resize_amended {α : Type} [Inhabited α] (v : SimpleVector α)
    (n : Nat) (hwf : Wf v) :
    (n ≤ v.size_ → v.capacity_ ≠ 0 → ResizeA v n = { v with size_ := n }) ∧
    (n ≤ v.size_ → v.capacity_ = 0 → ResizeA v n = ⟨[default], 0, 1⟩) ∧
    (v.size_ < n → n ≤ v.capacity_ →
      ResizeA v n = ⟨fillRange v.data v.size_ n default, n, v.capacity_⟩ ∧
      live (ResizeA v n) = live v ++ List.replicate (n - v.size_) default ∧
      (ResizeA v n).capacity_ = v.capacity_) ∧
    (v.capacity_ < n →
      live (ResizeA v n) = live v ++ List.replicate (n - v.size_) default ∧
      (ResizeA v n).capacity_ = n) ∧
    (ResizeA v n).size_ = n ∧
    (n ≤ v.size_ → ResizeB v n = { v with size_ := n }) ∧
    (v.size_ < n → n ≤ v.capacity_ →
      ResizeB v n = ⟨fillRange v.data v.size_ n default, n, v.capacity_⟩ ∧
      live (ResizeB v n) = live v ++ List.replicate (n - v.size_) default ∧
      (ResizeB v n).capacity_ = v.capacity_) ∧
    (v.capacity_ < n →
      live (ResizeB v n) = live v ++ List.replicate (n - v.size_) default ∧
      (ResizeB v n).capacity_ = n) ∧
    (ResizeB v n).size_ = n := by
  have h1 := hwf.1
  have h2 := hwf.2
  refine ⟨fun hn hc => resizeA_trunc hwf hn hc, ?_, ?_, ?_, resizeA_size v n,
    fun hn => resizeB_trunc hn, ?_, ?_, resizeB_size v n⟩
  · intro hn hc
    have hn0 : n = 0 := by omega
    subst hn0
    exact resizeA_empty hwf hc
  · intro hn hle
    refine ⟨resizeA_fill hn hle, ?_, ?_⟩
    · rw [resizeA_fill hn hle, fill_live hn (by omega)]
    · rw [resizeA_fill hn hle]
  · intro hgt
    rw [resizeA_grow hwf hgt]
    exact ⟨grow_live_replicate (by omega), rfl⟩
  · intro hn hle
    refine ⟨resizeB_fill hn hle, ?_, ?_⟩
    · rw [resizeB_fill hn hle, fill_live hn (by omega)]
    · rw [resizeB_fill hn hle]
  · intro hgt
    rw [resizeB_grow hwf hgt]
    exact ⟨grow_live_replicate (by omega), rfl⟩

theorem c4_resize_amended_witness :
    ResizeA (mkFromList [1, 2, 3] : SimpleVector Nat) 2
      = { mkFromList [1, 2, 3] with size_ := 2 } ∧
    live (ResizeA (mkFromList [1, 2, 3] : SimpleVector Nat) 5)
      = live (mkFromList [1, 2, 3] : SimpleVector Nat) ++ List.replicate 2 0 ∧
    ResizeB (mkFromList [1, 2, 3] : SimpleVector Nat) 2
      = { mkFromList [1, 2, 3] with size_ := 2 } := by
  have h := c4_resize_amended (mkFromList [1, 2, 3] : SimpleVector Nat) 2
    ⟨by decide, by decide⟩
  have h5 := c4_resize_amended (mkFromList [1, 2, 3] : SimpleVector Nat) 5
    ⟨by decide, by decide⟩
  exact ⟨h.1 (by decide) (by decide), (h5.2.2.2.1 (by decide)).1,
    h.2.2.2.2.2.1 (by decide)⟩

/-- C5: for every position `p` in `[0, size]`, `Insert(p, value)` produces
the sequence `old[0..p), value, old[p..size)` (elements formerly at
`[p, size)` shifted one slot right in order), `size` increases by 1, and the
returned iterator designates the inserted element at index `p`.  At full
capacity it grows exactly as `PushBack` does (to `max(1, capacity * 2)`,
recomputing the position by offset), and the resulting sequence is the same
as in the non-growing case.  Both variants. -/
theorem c5_insert {α : Type} [Inhabited α] (v : SimpleVector α) (p : Nat)
    (x : α) (hwf : Wf v) (hp : p ≤ v.size_) :
    live (InsertA v p x).1 = (live v).take p ++ x :: (live v).drop p ∧
    live (InsertB v p x).1 = (live v).take p ++ x :: (live v).drop p ∧
    (InsertA v p x).1.size_ = v.size_ + 1 ∧
    (InsertB v p x).1.size_ = v.size_ + 1 ∧
    (InsertA v p x).2 = p ∧
    (InsertB v p x).2 = p ∧
    idx (InsertA v p x).1 p = x ∧
    idx (InsertB v p x).1 p = x ∧
    (v.size_ = v.capacity_ →
      (InsertA v p x).1.capacity_ = max 1 (v.capacity_ * 2) ∧
      (InsertB v p x).1.capacity_ = max 1 (v.capacity_ * 2)) ∧
    (v.size_ < v.capacity_ →
      (InsertA v p x).1.capacity_ = v.capacity_ ∧
      (InsertB v p x).1.capacity_ = v.capacity_) := by
  have hlen : (live v).length = v.size_ := length_live (hwf.2 ▸ hwf.1)
  refine ⟨insertA_live x hwf hp, insertB_live x hwf hp,
    insertA_size p x hwf, insertB_size p x hwf,
    insertA_ret v p x, insertB_ret v p x, insertA_idx x hwf hp, ?_, ?_, ?_⟩
  · rw [idx_eq_live_getD (by rw [insertB_size p x hwf]; omega),
      insertB_live x hwf hp]
    apply getD_append_cons_of_len
    simp only [List.length_take, hlen]
    omega
  · intro h
    rw [insertA_cap p x hwf, insertB_cap p x hwf, if_pos h]
    exact ⟨Nat.max_comm _ _, Nat.max_comm _ _⟩
  · intro h
    rw [insertA_cap p x hwf, insertB_cap p x hwf, if_neg (by omega)]
    exact ⟨rfl, rfl⟩

theorem c5_insert_witness :
    live (InsertA (mkFromList [1, 3] : SimpleVector Nat) 0 9).1 = [9, 1, 3] ∧
    (InsertA (mkFromList [1, 3] : SimpleVector Nat) 0 9).1.size_ = 3 ∧
    idx (InsertA (mkFromList [1, 3] : SimpleVector Nat) 0 9).1 0 = 9 := by
  have h := c5_insert (mkFromList [1, 3] : SimpleVector Nat) 0 9
    ⟨by decide, by decide⟩ (by decide)
  refine ⟨?_, h.2.2.1, h.2.2.2.2.2.2.1⟩
  rw [h.1]
  decide

/-- C6: for every position `p` in `[0, size]`, `Insert(p, v)` immediately
followed by `Erase` at the same position `p` yields a vector equal, by
element-wise comparison over the live range, to the vector before the
insert (and the size is restored).  Both variants. -/
theorem c6_insert_erase {α : Type} [Inhabited α] (v : SimpleVector α)
    (p : Nat) (x : α) (hwf : Wf v) (hp : p ≤ v.size_) :
    live (Erase (InsertA v p x).1 p).1 = live v ∧
    (Erase (InsertA v p x).1 p).1.size_ = v.size_ ∧
    live (Erase (InsertB v p x).1 p).1 = live v ∧
    (Erase (InsertB v p x).1 p).1.size_ = v.size_ := by
  have hlen : (live v).length = v.size_ := length_live (hwf.2 ▸ hwf.1)
  have hwA := insertA_wf x hwf hp
  have hwB := insertB_wf x hwf hp
  have hpA : p < (InsertA v p x).1.size_ := by rw [insertA_size p x hwf]; omega
  have hpB : p < (InsertB v p x).1.size_ := by rw [insertB_size p x hwf]; omega
  refine ⟨?_, ?_, ?_, ?_⟩
  · rw [erase_live hpA hwA, insertA_live x hwf hp,
      take_insert_live (by omega), drop_insert_live (by omega),
      List.take_append_drop]
  · rw [erase_size, insertA_size p x hwf]
    omega
  · rw [erase_live hpB hwB, insertB_live x hwf hp,
      take_insert_live (by omega), drop_insert_live (by omega),
      List.take_append_drop]
  · rw [erase_size, insertB_size p x hwf]
    omega

theorem c6_insert_erase_witness :
    live (Erase (InsertA (mkFromList [1, 2, 3] : SimpleVector Nat) 1 9).1 1).1
      = live (mkFromList [1, 2, 3] : SimpleVector Nat) ∧
    (Erase (InsertA (mkFromList [1, 2, 3] : SimpleVector Nat) 1 9).1 1).1.size_
      = (mkFromList [1, 2, 3] : SimpleVector Nat).size_ :=
  ⟨(c6_insert_erase (mkFromList [1, 2, 3] : SimpleVector Nat) 1 9
      ⟨by decide, by decide⟩ (by decide)).1,
    (c6_insert_erase (mkFromList [1, 2, 3] : SimpleVector Nat) 1 9
      ⟨by decide, by decide⟩ (by decide)).2.1⟩

/-! ### Full program traces: every constructor, copy, move and swap

A program state is the list of `SimpleVector`s constructed so far; a `Cmd`
is one public call on that state — any constructor (appending a new vector),
any of the seven mutators on a vector, copy assignment, move assignment
(including self-move) or `swap` between any two vectors. -/

/-- One public call of a client program, addressed by vector indices. -/
inductive Cmd (α : Type) where
  | newDefault
  | newSized (n : Nat)
  | newFilled (n : Nat) (x : α)
  | newFromList (xs : List α)
  | newReserve (n : Nat)
  | newCopy (i : Nat)
  | newMove (i : Nat)
  | mutate (i : Nat) (op : Op α)
  | copyAssign (i j : Nat)
  | moveAssign (i j : Nat)
  | swapCmd (i j : Nat)
deriving DecidableEq

/-- The vector at index `i` of the program state. -/
def getV (env : List (SimpleVector α)) (i : Nat) : SimpleVector α :=
  env.getD i defaultSV

/-- Execute one call under variant A.  A move constructor builds a fresh
default destination and runs `MoveFrom`; move assignment onto the same
object runs the aliased `MoveFromSelf`; `swap` exchanges the two states. -/
def stepA [Inhabited α] (env : List (SimpleVector α)) :
    Cmd α → List (SimpleVector α)
  | .newDefault => env ++ [defaultSV]
  | .newSized n => env ++ [mkSized n]
  | .newFilled n x => env ++ [mkFilledA n x]
  | .newFromList xs => env ++ [mkFromList xs]
  | .newReserve n => env ++ [mkReserveA n]
  | .newCopy i => env ++ [CopyAndSwap (getV env i)]
  | .newMove i =>
      env.set i (MoveFrom defaultSV (getV env i)).2
        ++ [(MoveFrom defaultSV (getV env i)).1]
  | .mutate i op => env.set i (applyA (getV env i) op)
  | .copyAssign i j => env.set i (CopyAndSwap (getV env j))
  | .moveAssign i j =>
      if i = j then env.set i (MoveFromSelf (getV env i))
      else (env.set i (MoveFrom (getV env i) (getV env j)).1).set j
        (MoveFrom (getV env i) (getV env j)).2
  | .swapCmd i j => (env.set i (getV env j)).set j (getV env i)

/-- Execute one call under variant B (`CopyAndSwap`, `MoveFrom`,
`MoveFromSelf` and `swap` are textually the same in both headers). -/
def stepB [Inhabited α] (env : List (SimpleVector α)) :
    Cmd α → List (SimpleVector α)
  | .newDefault => env ++ [defaultSV]
  | .newSized n => env ++ [mkSized n]
  | .newFilled n x => env ++ [mkFilledB n x]
  | .newFromList xs => env ++ [mkFromList xs]
  | .newReserve n => env ++ [mkReserveB n]
  | .newCopy i => env ++ [CopyAndSwap (getV env i)]
  | .newMove i =>
      env.set i (MoveFrom defaultSV (getV env i)).2
        ++ [(MoveFrom defaultSV (getV env i)).1]
  | .mutate i op => env.set i (applyB (getV env i) op)
  | .copyAssign i j => env.set i (CopyAndSwap (getV env j))
  | .moveAssign i j =>
      if i = j then env.set i (MoveFromSelf (getV env i))
      else (env.set i (MoveFrom (getV env i) (getV env j)).1).set j
        (MoveFrom (getV env i) (getV env j)).2
  | .swapCmd i j => (env.set i (getV env j)).set j (getV env i)

/-- Preconditions of one call: the addressed vectors exist, and mutators
meet their documented contracts. -/
def ValidCmd (env : List (SimpleVector α)) : Cmd α → Prop
  | .newCopy i => i < env.length
  | .newMove i => i < env.length
  | .mutate i op => i < env.length ∧ ValidOp (getV env i) op
  | .copyAssign i j => i < env.length ∧ j < env.length
  | .moveAssign i j => i < env.length ∧ j < env.length
  | .swapCmd i j => i < env.length ∧ j < env.length
  | _ => True

/-- Run a program under variant A. -/
def runEnvA [Inhabited α] (env : List (SimpleVector α)) :
    List (Cmd α) → List (SimpleVector α)
  | [] => env
  | c :: cs => runEnvA (stepA env c) cs

/-- Run a program under variant B. -/
def runEnvB [Inhabited α] (env : List (SimpleVector α)) :
    List (Cmd α) → List (SimpleVector α)
  | [] => env
  | c :: cs => runEnvB (stepB env c) cs

/-- Every call of the program meets its precondition along the variant A
execution. -/
def ValidCmdsA [Inhabited α] (env : List (SimpleVector α)) :
    List (Cmd α) → Prop
  | [] => True
  | c :: cs => ValidCmd env c ∧ ValidCmdsA (stepA env c) cs

theorem forall₂_set {β γ : Type _} {R : β → γ → Prop} {l₁ : List β}
    {l₂ : List γ} (h : List.Forall₂ R l₁ l₂) :
    ∀ (i : Nat) {a : β} {b : γ}, R a b →
      List.Forall₂ R (l₁.set i a) (l₂.set i b) := by
  induction h with
  | nil =>
    intro i a b hab
    exact List.Forall₂.nil
  | cons h1 h2 ih =>
    intro i a b hab
    cases i with
    | zero => exact List.Forall₂.cons hab h2
    | succ n => exact List.Forall₂.cons h1 (ih n hab)

theorem forall₂_getD {β γ : Type _} {R : β → γ → Prop} {l₁ : List β}
    {l₂ : List γ} (h : List.Forall₂ R l₁ l₂) :
    ∀ {i : Nat}, i < l₁.length → ∀ (d₁ : β) (d₂ : γ),
      R (l₁.getD i d₁) (l₂.getD i d₂) := by
  induction h with
  | nil =>
    intro i hi d₁ d₂
    simp at hi
  | cons h1 h2 ih =>
    intro i hi d₁ d₂
    cases i with
    | zero => exact h1
    | succ n => exact ih (by simpa using hi) d₁ d₂

theorem forall₂_append_single {β γ : Type _} {R : β → γ → Prop} {l₁ : List β}
    {l₂ : List γ} (h : List.Forall₂ R l₁ l₂) {a : β} {b : γ} (hab : R a b) :
    List.Forall₂ R (l₁ ++ [a]) (l₂ ++ [b]) := by
  induction h with
  | nil => exact List.Forall₂.cons hab List.Forall₂.nil
  | cons h1 h2 ih => exact List.Forall₂.cons h1 ih

theorem rel_refl_of_wf [Inhabited α] {v : SimpleVector α} (hwf : Wf v) :
    Rel v v :=
  ⟨hwf, hwf, rfl, rfl, Or.inl rfl⟩

theorem rel_copyAndSwap [Inhabited α] {a b : SimpleVector α} (h : Rel a b) :
    Rel (CopyAndSwap a) (CopyAndSwap b) := by
  obtain ⟨hwa, hwb, hsz, hlv, hcap⟩ := h
  refine ⟨copyAndSwap_wf hwa, copyAndSwap_wf hwb, hsz, ?_, Or.inl hsz⟩
  rw [copyAndSwap_live hwa, copyAndSwap_live hwb, hlv]

theorem rel_move_pair [Inhabited α] (dA dB : SimpleVector α)
    {a b : SimpleVector α} (h : Rel a b) :
    Rel (MoveFrom dA a).1 (MoveFrom dB b).1 ∧
      Rel (MoveFrom dA a).2 (MoveFrom dB b).2 := by
  obtain ⟨hwa, hwb, hsz, hlv, hcap⟩ := h
  constructor
  · rw [moveFrom_fst, moveFrom_fst]
    exact ⟨hwa, hwb, hsz, hlv, hcap⟩
  · rw [moveFrom_snd, moveFrom_snd]
    exact rel_refl_of_wf defaultSV_wf

theorem rel_mkFilled [Inhabited α] (n : Nat) (x : α) :
    Rel (mkFilledA n x) (mkFilledB n x) := by
  rw [mkFilledA_eq]
  exact rel_refl_of_wf (mkFilledB_wf n x)

theorem rel_mkReserve [Inhabited α] (n : Nat) :
    Rel (mkReserveA n : SimpleVector α) (mkReserveB n) := by
  rw [mkReserveA_eq, mkReserveB_eq]
  by_cases hn : n = 0
  · rw [if_pos hn]
    exact rel_refl_of_wf defaultSV_wf
  · rw [if_neg hn]
    exact rel_refl_of_wf ⟨Nat.zero_le n, by simp⟩

theorem relEnv_step [Inhabited α] {ea eb : List (SimpleVector α)} {c : Cmd α}
    (h : List.Forall₂ Rel ea eb) (hv : ValidCmd ea c) :
    List.Forall₂ Rel (stepA ea c) (stepB eb c) := by
  cases c with
  | newDefault => exact forall₂_append_single h (rel_refl_of_wf defaultSV_wf)
  | newSized n => exact forall₂_append_single h (rel_refl_of_wf (mkSized_wf n))
  | newFilled n x => exact forall₂_append_single h (rel_mkFilled n x)
  | newFromList xs =>
    exact forall₂_append_single h (rel_refl_of_wf (mkFromList_wf xs))
  | newReserve n => exact forall₂_append_single h (rel_mkReserve n)
  | newCopy i =>
    exact forall₂_append_single h
      (rel_copyAndSwap (forall₂_getD h hv defaultSV defaultSV))
  | newMove i =>
    have hp := rel_move_pair defaultSV defaultSV
      (forall₂_getD h hv defaultSV defaultSV)
    exact forall₂_append_single (forall₂_set h i hp.2) hp.1
  | mutate i op =>
    exact forall₂_set h i
      (rel_step (forall₂_getD h hv.1 defaultSV defaultSV) hv.2)
  | copyAssign i j =>
    exact forall₂_set h i
      (rel_copyAndSwap (forall₂_getD h hv.2 defaultSV defaultSV))
  | moveAssign i j =>
    show List.Forall₂ Rel
      (if i = j then ea.set i (MoveFromSelf (getV ea i))
        else (ea.set i (MoveFrom (getV ea i) (getV ea j)).1).set j
          (MoveFrom (getV ea i) (getV ea j)).2)
      (if i = j then eb.set i (MoveFromSelf (getV eb i))
        else (eb.set i (MoveFrom (getV eb i) (getV eb j)).1).set j
          (MoveFrom (getV eb i) (getV eb j)).2)
    by_cases hij : i = j
    · rw [if_pos hij, if_pos hij, moveFromSelf_id, moveFromSelf_id]
      exact forall₂_set h i (forall₂_getD h hv.1 defaultSV defaultSV)
    · rw [if_neg hij, if_neg hij]
      have hp := rel_move_pair (getV ea i) (getV eb i)
        (forall₂_getD h hv.2 defaultSV defaultSV)
      exact forall₂_set (forall₂_set h i hp.1) j hp.2
  | swapCmd i j =>
    exact forall₂_set (forall₂_set h i (forall₂_getD h hv.2 defaultSV defaultSV))
      j (forall₂_getD h hv.1 defaultSV defaultSV)

theorem relEnv_run [Inhabited α] {ea eb : List (SimpleVector α)}
    {cs : List (Cmd α)} (h : List.Forall₂ Rel ea eb)
    (hv : ValidCmdsA ea cs) :
    List.Forall₂ Rel (runEnvA ea cs) (runEnvB eb cs) := by
  induction cs generalizing ea eb with
  | nil => exact h
  | cons c cs ih => exact ih (relEnv_step h hv.1) hv.2

theorem eqSV_congr [DecidableEq α] {a a₂ c c₂ : SimpleVector α}
    (h1 : live a = live a₂) (h2 : live c = live c₂) :
    eqSV a c = eqSV a₂ c₂ := by
  unfold eqSV
  rw [h1, h2]

theorem ltSV_congr [LT α] [DecidableRel ((· < ·) : α → α → Prop)]
    {a a₂ c c₂ : SimpleVector α} (h1 : live a = live a₂)
    (h2 : live c = live c₂) : ltSV a c = ltSV a₂ c₂ := by
  unfold ltSV
  rw [h1, h2]

/-- C8 counterexample: the two variants are not observably equivalent.  One
call of `Reserve(0)` on identical default-constructed vectors makes
`GetCapacity` report 1 under variant A and 0 under variant B. -/
theorem c8_counterexample :
    GetCapacity (runA (defaultSV : SimpleVector Nat) [Op.reserveTo 0]) = 1 ∧
    GetCapacity (runB (defaultSV : SimpleVector Nat) [Op.reserveTo 0]) = 0 := by
  decide

/-- C8 (amended): for every program over the full public surface —
constructors (default, sized, filled, initializer-list, reserve-proxy, copy,
move), the seven mutators (`PushBack`, `Insert`, `Erase`, `Resize`,
`Reserve`, `Clear`, `PopBack`), copy assignment, move assignment and `swap` —
applied identically under both variants, with every call meeting its
documented precondition, the two executions construct the same number of
vectors, and for each constructed vector the resulting `GetSize`, live
element sequence, every `At` observation (including its OutOfRange errors)
and every `==`/`<` comparison between constructed vectors agree;
`GetCapacity` agrees too, except that a vector driven through variant A's
`Reserve(0)`-on-capacity-0 edge reports capacity 1 under A and 0 under B
while both are still empty.  (The statement quantifies over all valid
programs, hence over every prefix, i.e. every step.) -/
theorem c8_variants_equiv_amended {α : Type} [Inhabited α] [DecidableEq α]
    [LT α] [DecidableRel ((· < ·) : α → α → Prop)]
    (cs : List (Cmd α)) (hv : ValidCmdsA ([] : List (SimpleVector α)) cs) :
    (runEnvA ([] : List (SimpleVector α)) cs).length
      = (runEnvB ([] : List (SimpleVector α)) cs).length ∧
    ∀ i, i < (runEnvA ([] : List (SimpleVector α)) cs).length →
      GetSize (getV (runEnvA ([] : List (SimpleVector α)) cs) i)
        = GetSize (getV (runEnvB ([] : List (SimpleVector α)) cs) i) ∧
      live (getV (runEnvA ([] : List (SimpleVector α)) cs) i)
        = live (getV (runEnvB ([] : List (SimpleVector α)) cs) i) ∧
      (∀ k, At (getV (runEnvA ([] : List (SimpleVector α)) cs) i) k
        = At (getV (runEnvB ([] : List (SimpleVector α)) cs) i) k) ∧
      (∀ j, j < (runEnvA ([] : List (SimpleVector α)) cs).length →
        eqSV (getV (runEnvA ([] : List (SimpleVector α)) cs) i)
            (getV (runEnvA ([] : List (SimpleVector α)) cs) j)
          = eqSV (getV (runEnvB ([] : List (SimpleVector α)) cs) i)
            (getV (runEnvB ([] : List (SimpleVector α)) cs) j) ∧
        ltSV (getV (runEnvA ([] : List (SimpleVector α)) cs) i)
            (getV (runEnvA ([] : List (SimpleVector α)) cs) j)
          = ltSV (getV (runEnvB ([] : List (SimpleVector α)) cs) i)
            (getV (runEnvB ([] : List (SimpleVector α)) cs) j)) ∧
      (GetCapacity (getV (runEnvA ([] : List (SimpleVector α)) cs) i)
          = GetCapacity (getV (runEnvB ([] : List (SimpleVector α)) cs) i) ∨
        (GetCapacity (getV (runEnvA ([] : List (SimpleVector α)) cs) i) = 1 ∧
          GetCapacity (getV (runEnvB ([] : List (SimpleVector α)) cs) i) = 0 ∧
          GetSize (getV (runEnvA ([] : List (SimpleVector α)) cs) i) = 0)) := by
  have h := relEnv_run (List.Forall₂.nil) hv
  refine ⟨h.length_eq, ?_⟩
  intro i hi
  obtain ⟨hwa, hwb, hsz, hlv, hcap⟩ := forall₂_getD h hi defaultSV defaultSV
  refine ⟨hsz, hlv, at_congr hsz hlv, ?_, hcap⟩
  intro j hj
  obtain ⟨-, -, -, hlvj, -⟩ := forall₂_getD h hj defaultSV defaultSV
  exact ⟨eqSV_congr hlv hlvj, ltSV_congr hlv hlvj⟩

/-- A concrete program touching an initializer-list constructor, a copy
constructor, a mutator, a swap and a move assignment. -/
def c8WitnessCmds : List (Cmd Nat) :=
  [Cmd.newFromList [1, 2], Cmd.newCopy 0, Cmd.mutate 1 (Op.pushBack 5),
    Cmd.swapCmd 0 1, Cmd.moveAssign 1 0]

theorem c8_variants_equiv_amended_witness :
    GetSize (getV (runEnvA ([] : List (SimpleVector Nat)) c8WitnessCmds) 1)
      = GetSize (getV (runEnvB ([] : List (SimpleVector Nat)) c8WitnessCmds) 1) ∧
    live (getV (runEnvA ([] : List (SimpleVector Nat)) c8WitnessCmds) 1)
      = live (getV (runEnvB ([] : List (SimpleVector Nat)) c8WitnessCmds) 1) := by
  have h := c8_variants_equiv_amended c8WitnessCmds
    ⟨trivial, (by decide : (0 : Nat) < 1), ⟨(by decide : (1 : Nat) < 2), trivial⟩,
      ⟨(by decide : (0 : Nat) < 2), (by decide : (1 : Nat) < 2)⟩,
      ⟨(by decide : (1 : Nat) < 2), (by decide : (0 : Nat) < 2)⟩, trivial⟩
  have h1 := h.2 1 (by decide)
  exact ⟨h1.1, h1.2.1⟩

/-- C9: the invariant `0 ≤ size ≤ capacity`, with the buffer holding exactly
`capacity` allocated slots (of which the first `size` are the live
elements), holds for every vector produced by any constructor and is
preserved by every public operation of both variants — the mutators under
their documented preconditions, and copy, move and swap. -/
theorem c9_invariant {α : Type} [Inhabited α] :
    Wf (defaultSV : SimpleVector α) ∧
    (∀ n : Nat, Wf (mkSized n : SimpleVector α)) ∧
    (∀ (n : Nat) (x : α), Wf (mkFilledA n x)) ∧
    (∀ (n : Nat) (x : α), Wf (mkFilledB n x)) ∧
    (∀ xs : List α, Wf (mkFromList xs)) ∧
    (∀ n : Nat, Wf (mkReserveA n : SimpleVector α)
      ∧ Wf (mkReserveB n : SimpleVector α)) ∧
    (∀ v : SimpleVector α, Wf v → Wf (CopyAndSwap v)) ∧
    (∀ dst src : SimpleVector α, Wf src →
      Wf (MoveFrom dst src).1 ∧ Wf (MoveFrom dst src).2) ∧
    (∀ a b : SimpleVector α, Wf a → Wf b →
      Wf (swapSV a b).1 ∧ Wf (swapSV a b).2) ∧
    (∀ (v : SimpleVector α) (op : Op α), Wf v → ValidOp v op →
      Wf (applyA v op) ∧ Wf (applyB v op)) := by
  refine ⟨defaultSV_wf, mkSized_wf, ?_, mkFilledB_wf, mkFromList_wf, ?_,
    fun v hwf => copyAndSwap_wf hwf, ?_, ?_, ?_⟩
  · intro n x
    rw [mkFilledA_eq]
    exact ⟨Nat.le_refl n, by simp⟩
  · intro n
    constructor
    · rw [mkReserveA_eq]
      split
      · exact defaultSV_wf
      · exact ⟨Nat.zero_le n, by simp⟩
    · rw [mkReserveB_eq]
      split
      · exact defaultSV_wf
      · exact ⟨Nat.zero_le n, by simp⟩
  · intro dst src hsrc
    exact ⟨hsrc, Nat.le_refl 0, rfl⟩
  · intro a b ha hb
    exact ⟨hb, ha⟩
  · intro v op hwf hvo
    exact ⟨applyA_wf hwf hvo, applyB_wf hwf hvo⟩

theorem c9_invariant_witness :
    Wf (mkSized 3 : SimpleVector Nat) ∧
    Wf (applyA (mkFromList [1, 2] : SimpleVector Nat) (Op.insertAt 1 9)) :=
  ⟨c9_invariant.2.1 3,
    (c9_invariant.2.2.2.2.2.2.2.2.2 (mkFromList [1, 2] : SimpleVector Nat)
      (Op.insertAt 1 9) ⟨by decide, by decide⟩ (by show (1 : Nat) ≤ 2; decide)).1⟩

end SV
